import Mathlib

/-!
Verification development for the split-balance (precisebank) transfer engine.

The engine overlays an 18-decimal extended denomination on an underlying
ledger that stores balances in a coarser integer denomination, keeping a
per-account fractional balance below the conversion factor and using a
designated reserve module account as counterparty for borrows and carries.

The keeper functions (SendCoins, sendExtendedCoins, subFromFractionalBalance,
addToFractionalBalance, the module facades, updateInsufficientFundsError) are
translated directly from the source.  External collaborators that the source
only calls into (the underlying x/bank ledger, the fractional store
accessors, the account registry, the conversion factor, the module name) are
modelled from the specification and marked as such in their doc comments.

Machine integers: the source uses arbitrary-precision sdkmath.Int, so the
embedding uses Lean's Int directly.  The source computes integer and
fractional parts with Quo/Mod; on the non-negative amounts that reach the
engine these agree with Lean's / and % on Int (both Euclidean for a positive
divisor), which the embedding uses.
-/

namespace PreciseBank

/-- Modelled from the spec: the conversion factor `C`, a fixed positive
integer, `10^(extended_decimals - integer_decimals)` = 10^12 for
extended = 18 and integer = 6 (the concrete value used by the spec's
scenarios).  The source reads it from types.ConversionFactor(), which is not
among the provided source files. -/
def ConversionFactor : ℤ := 10 ^ 12

/-- Denominations: the extended denom, the integer denom, and any other
pass-through denom handled opaquely by the underlying ledger. -/
inductive Denom : Type where
  | dext : Denom
  | dint : Denom
  | other : ℕ → Denom
deriving DecidableEq

/-- A multi-denom amount: a list of (denom, amount) entries, as sdk.Coins. -/
abbrev Coins : Type := List (Denom × ℤ)

/-- Modelled from the spec: sdk.Coins.AmountOf - the amount of the given
denom in the coin list, 0 if absent (denoms are unique in valid coins). -/
def amountOf (cs : Coins) (d : Denom) : ℤ :=
  match cs.find? (fun c => decide (c.1 = d)) with
  | some c => c.2
  | none => 0

/-- Modelled from the spec: sdk.Coins.IsValid - each entry positive and
denoms unique (the source also requires canonical ordering; no claim depends
on it). -/
def IsValid (cs : Coins) : Prop :=
  (∀ c ∈ cs, 0 < c.2) ∧ (cs.map Prod.fst).Nodup

instance (cs : Coins) : Decidable (IsValid cs) := by
  unfold IsValid; infer_instance

/-- Modelled from the spec: sdk.Coins.Sub of the full amount of one denom
removes that denom's entry (valid coins have unique denoms and Coins drop
zero entries). -/
def removeDenom (cs : Coins) (d : Denom) : Coins :=
  cs.filter (fun c => decide (c.1 ≠ d))

/-- Modelled from the spec: sdk.Coins.IsAllPositive - false on the empty
list, otherwise every amount positive. -/
def IsAllPositive (cs : Coins) : Bool :=
  !cs.isEmpty && cs.all (fun c => decide (0 < c.2))

/-- Error kinds surfaced by the engine and the underlying ledger, recognized
structurally (by constructor), matching errors.Is on the sdk error values. -/
inductive Err : Type where
  | insufficientFunds : Denom → ℤ → ℤ → Err
  | invalidCoins : Err
  | unauthorized : Err
  | other : ℕ → Err
deriving DecidableEq

/-- The store state: underlying ledger balances per denom, the fractional
balance store, and the trace of integer transfers issued to the underlying
ledger (observable calls, most recent last). -/
structure State (α : Type) where
  bal : Denom → α → ℤ
  fracBal : α → ℤ
  trace : List (α × α × Denom × ℤ)

/-- Outcome of a keeper operation: success with the new state, a returned
error together with the state including any writes already performed (the
ambient transaction, modelled separately, discards them), or a fatal
condition (source-level panic). -/
inductive Outcome (σ : Type) : Type where
  | ok : σ → Outcome σ
  | err : Err → σ → Outcome σ
  | fatal : Outcome σ
deriving DecidableEq

/-- Whether an outcome is a success. -/
def Outcome.isOk {σ : Type} : Outcome σ → Bool
  | .ok _ => true
  | _ => false

/-- Rewrite the error of an error outcome using the state at the failure
point, leaving successes and fatal outcomes unchanged. -/
def Outcome.mapErrWith {α : Type} (o : Outcome (State α)) (f : State α → Err → Err) :
    Outcome (State α) :=
  match o with
  | .err e st => .err (f st e) st
  | o => o

variable {α : Type} [DecidableEq α]

/-- Point update of a one-denom balance table: subtract from src, then add
to dst (the order used by the underlying ledger; a self-send nets to no
change). -/
def moveOne (b : α → ℤ) (src dst : α) (n : ℤ) : α → ℤ :=
  Function.update (Function.update b src (b src - n)) dst
    ((Function.update b src (b src - n)) dst + n)

/-- Modelled from the spec: UnderlyingLedger.send for a single coin - fails
with InsufficientFunds when the sender's balance of that denom is below the
amount, otherwise moves the amount and records the call in the trace.
SendCoins in x/bank performs no blocked-address check. -/
def bankSend (s : State α) (src dst : α) (d : Denom) (n : ℤ) : Outcome (State α) :=
  if s.bal d src < n then .err (.insufficientFunds d (s.bal d src) n) s
  else .ok { s with
    bal := fun d' => if d' = d then moveOne (s.bal d) src dst n else s.bal d'
    trace := s.trace ++ [(src, dst, d, n)] }

/-- Modelled from the spec: UnderlyingLedger.send for a coin list - the
coins are moved one by one, stopping at the first failure. -/
def bankSendCoins (s : State α) (src dst : α) (cs : Coins) : Outcome (State α) :=
  match cs with
  | [] => .ok s
  | c :: rest =>
    match bankSend s src dst c.1 c.2 with
    | .ok s' => bankSendCoins s' src dst rest
    | o => o

/-- Modelled from the spec: GetFractionalBalance reads the stored fractional
balance, 0 if absent (the store representation reads absent keys as 0). -/
def GetFractionalBalance (s : State α) (addr : α) : ℤ :=
  s.fracBal addr

/-- Modelled from the spec: SetFractionalBalance writes a fractional balance,
whose contract requires a value in [0, C); a violation is a programming
error (fatal), not a recoverable condition. -/
def SetFractionalBalance (s : State α) (addr : α) (f : ℤ) : Outcome (State α) :=
  if 0 ≤ f ∧ f < ConversionFactor then
    .ok { s with fracBal := Function.update s.fracBal addr f }
  else .fatal

/-- Modelled from the spec: GetBalance - for the extended denom the true
extended balance I(addr)*C + F(addr), otherwise the underlying ledger
balance. -/
def GetBalance (s : State α) (addr : α) (d : Denom) : ℤ :=
  match d with
  | Denom.dext => s.bal Denom.dint addr * ConversionFactor + s.fracBal addr
  | d => s.bal d addr

/-- subFromFractionalBalance subtracts a fractional amount from the current
fractional balance, returning the new fractional balance and true if an
integer borrow is required; none models the source's guard panics on inputs
not below the conversion factor. -/
def subFromFractionalBalance (currentFractionalBalance amountToSub : ℤ) :
    Option (ℤ × Bool) :=
  if ConversionFactor ≤ currentFractionalBalance then none
  else if ConversionFactor ≤ amountToSub then none
  else
    let newFractionalBalance := currentFractionalBalance - amountToSub
    if newFractionalBalance < 0 then
      some (newFractionalBalance + ConversionFactor, true)
    else
      some (newFractionalBalance, false)

/-- addToFractionalBalance adds a fractional amount to the current
fractional balance, returning the new fractional balance and true if a carry
is required; none models the source's guard panics on inputs not below the
conversion factor. -/
def addToFractionalBalance (currentFractionalBalance amountToAdd : ℤ) :
    Option (ℤ × Bool) :=
  if ConversionFactor ≤ currentFractionalBalance then none
  else if ConversionFactor ≤ amountToAdd then none
  else
    let newFractionalBalance := currentFractionalBalance + amountToAdd
    if ConversionFactor ≤ newFractionalBalance then
      some (newFractionalBalance - ConversionFactor, true)
    else
      some (newFractionalBalance, false)

/-- updateInsufficientFundsError returns a modified InsufficientFunds error
carrying the extended-denom balance and the extended-denom requested amount
when the given error is of InsufficientFunds kind, and returns any other
error unchanged.  The state argument is the context at the failure point. -/
def updateInsufficientFundsError (s : State α) (addr : α) (amt : ℤ) (e : Err) : Err :=
  match e with
  | .insufficientFunds _ _ _ =>
    .insufficientFunds Denom.dext (GetBalance s addr Denom.dext) amt
  | e => e

/-- sendExtendedCoins transfers amt extended coins from src to dst.  R is
the resolved reserve module address (k.ak.GetModuleAddress(types.ModuleName),
resolved at init per the spec).  Translated from the source: self-transfer
short-circuit; decomposition via Quo/Mod by the conversion factor; the
borrow/carry truth table; direct transfer first, then the borrow to the
reserve or the carry from the reserve (carry failure is fatal); finally the
two fractional-store writes. -/
def sendExtendedCoins (R : α) (s : State α) (src dst : α) (amt : ℤ) :
    Outcome (State α) :=
  if src = dst then .ok s
  else
    match subFromFractionalBalance (GetFractionalBalance s src) (amt % ConversionFactor),
          addToFractionalBalance (GetFractionalBalance s dst) (amt % ConversionFactor) with
    | some (senderNewFracBal, senderNeedsBorrow),
      some (recipientNewFracBal, recipientNeedsCarry) =>
      let integerAmt : ℤ :=
        if senderNeedsBorrow && recipientNeedsCarry then amt / ConversionFactor + 1
        else amt / ConversionFactor
      let afterDirect : Outcome (State α) :=
        if 0 < integerAmt then
          (bankSend s src dst Denom.dint integerAmt).mapErrWith
            (fun st e => updateInsufficientFundsError st src amt e)
        else .ok s
      match afterDirect with
      | .ok s₁ =>
        let afterBorrow : Outcome (State α) :=
          if senderNeedsBorrow && !recipientNeedsCarry then
            (bankSend s₁ src R Denom.dint 1).mapErrWith
              (fun st e => updateInsufficientFundsError st src amt e)
          else .ok s₁
        match afterBorrow with
        | .ok s₂ =>
          let afterCarry : Outcome (State α) :=
            if !senderNeedsBorrow && recipientNeedsCarry then
              match bankSend s₂ R dst Denom.dint 1 with
              | .ok s₃ => .ok s₃
              | _ => .fatal
            else .ok s₂
          match afterCarry with
          | .ok s₃ =>
            match SetFractionalBalance s₃ src senderNewFracBal with
            | .ok s₄ => SetFractionalBalance s₄ dst recipientNewFracBal
            | o => o
          | o => o
        | o => o
      | o => o
    | _, _ => .fatal

/-- Events emitted by SendCoins on success with non-zero net movement. -/
inductive Event (α : Type) : Type where
  | transfer : α → α → Coins → Event α
  | coinSpent : α → Coins → Event α
  | coinReceived : α → Coins → Event α
deriving DecidableEq

/-- SendCoins transfers amt coins from src to dst: validate, split off the
extended-denom portion, pass the rest through the underlying ledger, run the
extended portion through sendExtendedCoins, then emit transfer, coin_spent
and coin_received events denominated in the extended denom for the full
equivalent amount (extended amount plus integer-denom amount times the
conversion factor, per types.SumExtendedCoin as the spec describes it),
skipping emission when that amount is zero.  Translated from the source. -/
def SendCoins (R : α) (s : State α) (src dst : α) (amt : Coins) :
    Outcome (State α) × List (Event α) :=
  if ¬IsValid amt then (.err .invalidCoins s, [])
  else
    let extendedCoinAmount := amountOf amt Denom.dext
    let passthroughCoins :=
      if 0 < extendedCoinAmount then removeDenom amt Denom.dext else amt
    let afterPassthrough : Outcome (State α) :=
      if IsAllPositive passthroughCoins then bankSendCoins s src dst passthroughCoins
      else .ok s
    match afterPassthrough with
    | .ok s₁ =>
      let afterExtended : Outcome (State α) :=
        if 0 < extendedCoinAmount then sendExtendedCoins R s₁ src dst extendedCoinAmount
        else .ok s₁
      match afterExtended with
      | .ok s₂ =>
        let fullEmission :=
          amountOf amt Denom.dext + amountOf amt Denom.dint * ConversionFactor
        if fullEmission = 0 then (.ok s₂, [])
        else
          (.ok s₂,
           [Event.transfer dst src [(Denom.dext, fullEmission)],
            Event.coinSpent src [(Denom.dext, fullEmission)],
            Event.coinReceived dst [(Denom.dext, fullEmission)]])
      | o => (o, [])
    | o => (o, [])

/-- Modelled from the spec: the ambient transactional store - all writes of
a send roll back together when it returns an error, so an error return
leaves the store as it was at entry (events are likewise dropped). -/
def SendCoinsTx (R : α) (s : State α) (src dst : α) (amt : Coins) :
    Outcome (State α) × List (Event α) :=
  match SendCoins R s src dst amt with
  | (.ok s', evs) => (.ok s', evs)
  | (.err e _, _) => (.err e s, [])
  | (.fatal, _) => (.fatal, [])

/-- Modelled from the spec: the module name of this core, used as reserve
account identifier and as the guard token of the facade rules. -/
def ModuleName : String := "precisebank"

/-- Modelled from the spec: the account registry (module-account address
lookup, nil when unregistered) and the underlying ledger's blocked-address
set. -/
structure Env (α : Type) where
  moduleAddr : String → Option α
  blocked : α → Bool

/-- SendCoinsFromAccountToModule: resolve the recipient module (missing is
fatal), refuse the reserve module as recipient with Unauthorized, else
delegate to SendCoins.  Translated from the source. -/
def SendCoinsFromAccountToModule (env : Env α) (R : α) (s : State α)
    (senderAddr : α) (recipientModule : String) (amt : Coins) :
    Outcome (State α) × List (Event α) :=
  match env.moduleAddr recipientModule with
  | none => (.fatal, [])
  | some recipientAddr =>
    if recipientModule = ModuleName then (.err .unauthorized s, [])
    else SendCoins R s senderAddr recipientAddr amt

/-- SendCoinsFromModuleToAccount: resolve the sender module (missing is
fatal), refuse the reserve module as sender with Unauthorized, refuse a
blocked recipient with Unauthorized, else delegate to SendCoins.  Translated
from the source. -/
def SendCoinsFromModuleToAccount (env : Env α) (R : α) (s : State α)
    (senderModule : String) (recipientAddr : α) (amt : Coins) :
    Outcome (State α) × List (Event α) :=
  match env.moduleAddr senderModule with
  | none => (.fatal, [])
  | some senderAddr =>
    if senderModule = ModuleName then (.err .unauthorized s, [])
    else if env.blocked recipientAddr then (.err .unauthorized s, [])
    else SendCoins R s senderAddr recipientAddr amt

/-- SendCoinsFromModuleToModule: resolve both modules (missing is fatal),
refuse the reserve module as recipient with Unauthorized, else delegate to
SendCoins.  Translated from the source. -/
def SendCoinsFromModuleToModule (env : Env α) (R : α) (s : State α)
    (senderModule recipientModule : String) (amt : Coins) :
    Outcome (State α) × List (Event α) :=
  match env.moduleAddr senderModule with
  | none => (.fatal, [])
  | some senderAddr =>
    match env.moduleAddr recipientModule with
    | none => (.fatal, [])
    | some recipientAcc =>
      if recipientModule = ModuleName then (.err .unauthorized s, [])
      else SendCoins R s senderAddr recipientAcc amt

/-- The true extended balance E(a) = I(a) * C + F(a). -/
def extBal (s : State α) (a : α) : ℤ :=
  s.bal Denom.dint a * ConversionFactor + s.fracBal a

/-- Total extended supply over the non-reserve accounts of a finite account
universe.  The reserve R is excluded: its integer balance is the backing for
the outstanding fractional balances (a borrow moves one integer unit into R
exactly when one unit's worth of fractional balance is created), so counting
it alongside the fractional balances would double-count. -/
def totalSupply [Fintype α] (s : State α) (R : α) : ℤ :=
  ∑ z ∈ Finset.univ.erase R, extBal s z

/-- Sum of fractional balances of all accounts other than the reserve. -/
def fracSum [Fintype α] (s : State α) (R : α) : ℤ :=
  ∑ z ∈ Finset.univ.erase R, s.fracBal z

/-- The §3 state invariants: every fractional balance in [0, C), the
reserve's fractional balance zero, underlying integer balances non-negative
(in particular I(R) ≥ 0), and the reserve covering all outstanding
fractional balances. -/
def Inv [Fintype α] (R : α) (s : State α) : Prop :=
  (∀ z, 0 ≤ s.fracBal z ∧ s.fracBal z < ConversionFactor) ∧
  s.fracBal R = 0 ∧
  (∀ z, 0 ≤ s.bal Denom.dint z) ∧
  fracSum s R ≤ s.bal Denom.dint R * ConversionFactor

instance [Fintype α] (R : α) (s : State α) : Decidable (Inv R s) := by
  unfold Inv; infer_instance

/-- Run a list of SendCoins calls in order, succeeding only if every call
succeeds. -/
def runSends (R : α) (s : State α) : List (α × α × Coins) → Option (State α)
  | [] => some s
  | c :: rest =>
    match SendCoins R s c.1 c.2.1 c.2.2 with
    | (.ok s', _) => runSends R s' rest
    | _ => none

/-! ## Basic lemmas about the primitives -/

theorem moveOne_apply (b : α → ℤ) (x y : α) (n : ℤ) (z : α) :
    moveOne b x y n z = b z + (if z = y then n else 0) - (if z = x then n else 0) := by
  rcases eq_or_ne z y with rfl | hzy
  · rcases eq_or_ne z x with rfl | hzx
    · simp [moveOne, Function.update_apply]
    · simp [moveOne, Function.update_apply, hzx]
  · rcases eq_or_ne z x with rfl | hzx
    · simp [moveOne, Function.update_apply, hzy]
    · simp [moveOne, Function.update_apply, hzy, hzx]

theorem bankSend_ok {s s' : State α} {src dst : α} {d : Denom} {n : ℤ}
    (h : bankSend s src dst d n = .ok s') :
    n ≤ s.bal d src ∧
    (∀ d' z, d' ≠ d → s'.bal d' z = s.bal d' z) ∧
    (∀ z, s'.bal d z = s.bal d z + (if z = dst then n else 0) - (if z = src then n else 0)) ∧
    s'.fracBal = s.fracBal ∧ s'.trace = s.trace ++ [(src, dst, d, n)] := by
  unfold bankSend at h
  by_cases hc : s.bal d src < n
  · rw [if_pos hc] at h; exact absurd h (by simp)
  · rw [if_neg hc] at h
    injection h with h
    subst h
    refine ⟨by omega, ?_, ?_, rfl, rfl⟩
    · intro d' z hd'; simp [hd']
    · intro z; simp [moveOne_apply]

theorem SetFractionalBalance_ok {s s' : State α} {addr : α} {f : ℤ}
    (h : SetFractionalBalance s addr f = .ok s') :
    0 ≤ f ∧ f < ConversionFactor ∧ s'.bal = s.bal ∧ s'.trace = s.trace ∧
    (∀ z, s'.fracBal z = if z = addr then f else s.fracBal z) := by
  unfold SetFractionalBalance at h
  by_cases hg : 0 ≤ f ∧ f < ConversionFactor
  · rw [if_pos hg] at h
    injection h with h
    subst h
    exact ⟨hg.1, hg.2, rfl, rfl, fun z => by simp [Function.update_apply]⟩
  · rw [if_neg hg] at h; exact absurd h (by simp)

theorem subFromFractionalBalance_some {f d f' : ℤ} {b : Bool}
    (h : subFromFractionalBalance f d = some (f', b)) :
    f < ConversionFactor ∧ d < ConversionFactor ∧
    ((f - d < 0 ∧ f' = f - d + ConversionFactor ∧ b = true) ∨
     (0 ≤ f - d ∧ f' = f - d ∧ b = false)) := by
  unfold subFromFractionalBalance at h
  by_cases h1 : ConversionFactor ≤ f
  · rw [if_pos h1] at h; exact absurd h (by simp)
  · rw [if_neg h1] at h
    by_cases h2 : ConversionFactor ≤ d
    · rw [if_pos h2] at h; exact absurd h (by simp)
    · rw [if_neg h2] at h
      simp only at h
      by_cases h3 : f - d < 0
      · rw [if_pos h3] at h
        injection h with h
        injection h with hl hr
        exact ⟨by omega, by omega, Or.inl ⟨h3, hl.symm, hr.symm⟩⟩
      · rw [if_neg h3] at h
        injection h with h
        injection h with hl hr
        exact ⟨by omega, by omega, Or.inr ⟨by omega, hl.symm, hr.symm⟩⟩

theorem addToFractionalBalance_some {f d f' : ℤ} {b : Bool}
    (h : addToFractionalBalance f d = some (f', b)) :
    f < ConversionFactor ∧ d < ConversionFactor ∧
    ((ConversionFactor ≤ f + d ∧ f' = f + d - ConversionFactor ∧ b = true) ∨
     (f + d < ConversionFactor ∧ f' = f + d ∧ b = false)) := by
  unfold addToFractionalBalance at h
  by_cases h1 : ConversionFactor ≤ f
  · rw [if_pos h1] at h; exact absurd h (by simp)
  · rw [if_neg h1] at h
    by_cases h2 : ConversionFactor ≤ d
    · rw [if_pos h2] at h; exact absurd h (by simp)
    · rw [if_neg h2] at h
      simp only at h
      by_cases h3 : ConversionFactor ≤ f + d
      · rw [if_pos h3] at h
        injection h with h
        injection h with hl hr
        exact ⟨by omega, by omega, Or.inl ⟨h3, hl.symm, hr.symm⟩⟩
      · rw [if_neg h3] at h
        injection h with h
        injection h with hl hr
        exact ⟨by omega, by omega, Or.inr ⟨by omega, hl.symm, hr.symm⟩⟩

theorem subFromFractionalBalance_lt {f d : ℤ} (hf : f < ConversionFactor)
    (hd : d < ConversionFactor) :
    subFromFractionalBalance f d =
      some (if f - d < 0 then (f - d + ConversionFactor, true) else (f - d, false)) := by
  unfold subFromFractionalBalance
  rw [if_neg (not_le.mpr hf), if_neg (not_le.mpr hd)]
  simp only
  by_cases h3 : f - d < 0
  · rw [if_pos h3, if_pos h3]
  · rw [if_neg h3, if_neg h3]

theorem addToFractionalBalance_lt {f d : ℤ} (hf : f < ConversionFactor)
    (hd : d < ConversionFactor) :
    addToFractionalBalance f d =
      some (if ConversionFactor ≤ f + d then (f + d - ConversionFactor, true)
            else (f + d, false)) := by
  unfold addToFractionalBalance
  rw [if_neg (not_le.mpr hf), if_neg (not_le.mpr hd)]
  simp only
  by_cases h3 : ConversionFactor ≤ f + d
  · rw [if_pos h3, if_pos h3]
  · rw [if_neg h3, if_neg h3]

/-- The conversion factor as a numeral, for linear arithmetic. -/
theorem ConversionFactor_eq : ConversionFactor = 1000000000000 := by
  norm_num [ConversionFactor]

/-- An if on the false boolean condition takes the else branch. -/
theorem ite_bool_ff {β : Type} (x y : β) : (if false = true then x else y) = y :=
  if_neg (by decide)

/-- An if on the true boolean condition takes the then branch. -/
theorem ite_bool_tt {β : Type} (x y : β) : (if true = true then x else y) = x :=
  if_pos rfl

/-- Sum over the universe minus the reserve of a function that differs from a
base function at exactly two non-reserve points. -/
theorem sum_two_point_erase [Fintype α] (f g : α → ℤ) (R x y : α) (vx vy : ℤ)
    (hx : x ≠ R) (hy : y ≠ R) (hxy : x ≠ y)
    (hg : ∀ z, z ≠ R → g z = if z = y then vy else if z = x then vx else f z) :
    ∑ z ∈ Finset.univ.erase R, g z =
      (∑ z ∈ Finset.univ.erase R, f z) + (vy - f y) + (vx - f x) := by
  have hpt : ∀ z, z ≠ R →
      g z = f z + (if z = y then vy - f y else 0) + (if z = x then vx - f x else 0) := by
    intro z hz
    rw [hg z hz]
    by_cases h1 : z = y
    · subst h1
      rw [if_pos rfl, if_pos rfl, if_neg (fun hh => hxy hh.symm)]
      omega
    · rw [if_neg h1, if_neg h1]
      by_cases h2 : z = x
      · subst h2
        rw [if_pos rfl, if_pos rfl]
        omega
      · rw [if_neg h2, if_neg h2]
        omega
  rw [Finset.sum_congr rfl (fun z hz => hpt z (Finset.mem_erase.mp hz).1)]
  rw [Finset.sum_add_distrib, Finset.sum_add_distrib]
  rw [Finset.sum_ite_eq' (Finset.univ.erase R) y (fun _ => vy - f y),
      Finset.sum_ite_eq' (Finset.univ.erase R) x (fun _ => vx - f x)]
  rw [if_pos (Finset.mem_erase.mpr ⟨hy, Finset.mem_univ y⟩),
      if_pos (Finset.mem_erase.mpr ⟨hx, Finset.mem_univ x⟩)]

/-- Sum over the universe minus the reserve is unchanged when the function
agrees with the base off the reserve. -/
theorem sum_erase_congr [Fintype α] (f g : α → ℤ) (R : α)
    (hg : ∀ z, z ≠ R → g z = f z) :
    ∑ z ∈ Finset.univ.erase R, g z = ∑ z ∈ Finset.univ.erase R, f z :=
  Finset.sum_congr rfl (fun z hz => hg z (Finset.mem_erase.mp hz).1)

/-- Characterization of a successful extended-coin transfer with distinct
parties: the borrow and carry flags, new fractional balances, the pointwise
effect on the stores, the exact list of underlying integer transfers issued
(direct transfer first, then the reserve move), and the balance checks that
the underlying ledger enforced. -/
theorem sendExtendedCoins_ok_char {R src dst : α} {s s' : State α} {a : ℤ}
    (hne : src ≠ dst) (ha : 0 < a)
    (h : sendExtendedCoins R s src dst a = .ok s') :
    ∃ b c : Bool, ∃ fs' fr' dmv : ℤ,
      (b = true ↔ s.fracBal src - a % ConversionFactor < 0) ∧
      (c = true ↔ ConversionFactor ≤ s.fracBal dst + a % ConversionFactor) ∧
      fs' = (if b then s.fracBal src - a % ConversionFactor + ConversionFactor
             else s.fracBal src - a % ConversionFactor) ∧
      fr' = (if c then s.fracBal dst + a % ConversionFactor - ConversionFactor
             else s.fracBal dst + a % ConversionFactor) ∧
      dmv = (if b && c then a / ConversionFactor + 1 else a / ConversionFactor) ∧
      s.fracBal src < ConversionFactor ∧ s.fracBal dst < ConversionFactor ∧
      0 ≤ fs' ∧ fs' < ConversionFactor ∧ 0 ≤ fr' ∧ fr' < ConversionFactor ∧
      (∀ z, s'.fracBal z = if z = dst then fr' else if z = src then fs' else s.fracBal z) ∧
      (∀ d z, d ≠ Denom.dint → s'.bal d z = s.bal d z) ∧
      (∀ z, s'.bal Denom.dint z =
        s.bal Denom.dint z + (if z = dst then dmv else 0) - (if z = src then dmv else 0)
          + (if b && !c then (if z = R then 1 else 0) - (if z = src then 1 else 0) else 0)
          + (if !b && c then (if z = dst then 1 else 0) - (if z = R then 1 else 0) else 0)) ∧
      s'.trace = s.trace ++
        ((if 0 < dmv then [(src, dst, Denom.dint, dmv)] else []) ++
         (if b && !c then [(src, R, Denom.dint, 1)] else []) ++
         (if !b && c then [(R, dst, Denom.dint, 1)] else [])) ∧
      (0 < dmv → dmv ≤ s.bal Denom.dint src) ∧
      (b && !c = true → 1 ≤ s.bal Denom.dint src - dmv) ∧
      (!b && c = true → 1 ≤ s.bal Denom.dint R + (if R = dst then dmv else 0)
                          - (if R = src then dmv else 0)) := by
  unfold sendExtendedCoins at h
  rw [if_neg hne] at h
  simp only [GetFractionalBalance] at h
  rcases hsub : subFromFractionalBalance (s.fracBal src) (a % ConversionFactor) with _ | ⟨fs', b⟩
  · rw [hsub] at h; exact absurd h (by simp)
  rcases hadd : addToFractionalBalance (s.fracBal dst) (a % ConversionFactor) with _ | ⟨fr', c⟩
  · rw [hsub, hadd] at h
    exact absurd h (by simp)
  rw [hsub, hadd] at h
  simp only at h
  have hC : (0:ℤ) < ConversionFactor := by norm_num [ConversionFactor]
  have hps : 0 ≤ a % ConversionFactor := Int.emod_nonneg a (by norm_num [ConversionFactor])
  have hplt : a % ConversionFactor < ConversionFactor := Int.emod_lt_of_pos a hC
  have hinn : 0 ≤ a / ConversionFactor := Int.ediv_nonneg ha.le hC.le
  obtain ⟨hfs, -, hsubCase⟩ := subFromFractionalBalance_some hsub
  obtain ⟨hfd, -, haddCase⟩ := addToFractionalBalance_some hadd
  rcases hsubCase with ⟨hbneg, hfseq, rfl⟩ | ⟨hbnn, hfseq, rfl⟩ <;>
    rcases haddCase with ⟨hcge, hfreq, rfl⟩ | ⟨hclt, hfreq, rfl⟩
  · -- borrow and carry
    simp only [Bool.and_self, Bool.not_true, Bool.and_false, if_true, if_false] at h
    rw [if_pos (by omega : (0:ℤ) < a / ConversionFactor + 1)] at h
    rcases hbs1 : bankSend s src dst Denom.dint (a / ConversionFactor + 1) with s₁ | ⟨e1, est1⟩ | _ <;>
      rw [hbs1] at h <;> simp only [Outcome.mapErrWith] at h
    rotate_left
    · exact absurd h (by simp)
    · exact absurd h (by simp)
    rw [if_neg (by decide : ¬(false = true))] at h
    simp only at h
    rw [if_neg (by decide : ¬((false && true) = true))] at h
    simp only at h
    rcases hset1 : SetFractionalBalance s₁ src fs' with s₄ | ⟨e2, est2⟩ | _ <;>
      rw [hset1] at h <;> simp only at h
    rotate_left
    · exact absurd h (by simp)
    · exact absurd h (by simp)
    obtain ⟨hchk1, hoth1, hint1, hfb1, htr1⟩ := bankSend_ok hbs1
    obtain ⟨hfs0, hfs1, hbal4, htr4, hfrac4⟩ := SetFractionalBalance_ok hset1
    obtain ⟨hfr0, hfr1, hbal5, htr5, hfrac5⟩ := SetFractionalBalance_ok h
    refine ⟨true, true, fs', fr', a / ConversionFactor + 1, by simp [hbneg], by simp [hcge],
      by simp [hfseq], by simp [hfreq], by simp, hfs, hfd, hfs0, hfs1, hfr0, hfr1,
      ?_, ?_, ?_, ?_, ?_, ?_, ?_⟩
    · intro z
      rw [hfrac5 z, hfrac4 z, hfb1]
    · intro d z hd
      rw [hbal5, hbal4]
      exact hoth1 d z hd
    · intro z
      rw [hbal5, hbal4, hint1 z]
      rw [if_neg (by decide : ¬((true && !true) = true)),
          if_neg (by decide : ¬((!true && true) = true))]
      omega
    · rw [htr5, htr4, htr1]
      rw [if_pos (by omega : (0:ℤ) < a / ConversionFactor + 1),
          if_neg (by decide : ¬((true && !true) = true)),
          if_neg (by decide : ¬((!true && true) = true))]
      simp
    · intro _
      exact hchk1
    · intro hx
      exact absurd hx (by decide)
    · intro hx
      exact absurd hx (by decide)
  · -- borrow, no carry
    rw [if_neg (by decide : ¬((true && false) = true))] at h
    by_cases hdm : 0 < a / ConversionFactor
    · rw [if_pos hdm] at h
      rcases hbs1 : bankSend s src dst Denom.dint (a / ConversionFactor) with s₁ | ⟨e1, est1⟩ | _ <;>
        rw [hbs1] at h <;> simp only [Outcome.mapErrWith] at h
      rotate_left
      · exact absurd h (by simp)
      · exact absurd h (by simp)
      rw [if_pos (by decide : (true && !false) = true)] at h
      rcases hbs2 : bankSend s₁ src R Denom.dint 1 with s₂ | ⟨e2, est2⟩ | _ <;>
        rw [hbs2] at h <;> simp only [Outcome.mapErrWith] at h
      rotate_left
      · exact absurd h (by simp)
      · exact absurd h (by simp)
      rw [if_neg (by decide : ¬((!true && false) = true))] at h
      simp only at h
      rcases hset1 : SetFractionalBalance s₂ src fs' with s₄ | ⟨e3, est3⟩ | _ <;>
        rw [hset1] at h <;> simp only at h
      rotate_left
      · exact absurd h (by simp)
      · exact absurd h (by simp)
      obtain ⟨hchk1, hoth1, hint1, hfb1, htr1⟩ := bankSend_ok hbs1
      obtain ⟨hchk2, hoth2, hint2, hfb2, htr2⟩ := bankSend_ok hbs2
      obtain ⟨hfs0, hfs1, hbal4, htr4, hfrac4⟩ := SetFractionalBalance_ok hset1
      obtain ⟨hfr0, hfr1, hbal5, htr5, hfrac5⟩ := SetFractionalBalance_ok h
      refine ⟨true, false, fs', fr', a / ConversionFactor, iff_of_true rfl hbneg,
        iff_of_false (by simp) (by omega), by simp [hfseq], by simp [hfreq],
        by rw [if_neg (by decide : ¬((true && false) = true))], hfs, hfd,
        hfs0, hfs1, hfr0, hfr1, ?_, ?_, ?_, ?_, ?_, ?_, ?_⟩
      · intro z
        rw [hfrac5 z, hfrac4 z, hfb2, hfb1]
      · intro d z hd
        rw [hbal5, hbal4, hoth2 d z hd]
        exact hoth1 d z hd
      · intro z
        rw [hbal5, hbal4, hint2 z, hint1 z]
        rw [if_pos (by decide : (true && !false) = true),
            if_neg (by decide : ¬((!true && false) = true))]
        omega
      · rw [htr5, htr4, htr2, htr1]
        rw [if_pos hdm, if_pos (by decide : (true && !false) = true),
            if_neg (by decide : ¬((!true && false) = true))]
        simp
      · intro _
        exact hchk1
      · intro _
        have h2 := hchk2
        rw [hint1 src, if_neg hne, if_pos rfl] at h2
        omega
      · intro hx
        exact absurd hx (by decide)
    · rw [if_neg hdm] at h
      simp only at h
      have hdm0 : a / ConversionFactor = 0 := by omega
      rw [if_pos (by decide : (true && !false) = true)] at h
      rcases hbs2 : bankSend s src R Denom.dint 1 with s₂ | ⟨e2, est2⟩ | _ <;>
        rw [hbs2] at h <;> simp only [Outcome.mapErrWith] at h
      rotate_left
      · exact absurd h (by simp)
      · exact absurd h (by simp)
      rw [if_neg (by decide : ¬((!true && false) = true))] at h
      simp only at h
      rcases hset1 : SetFractionalBalance s₂ src fs' with s₄ | ⟨e3, est3⟩ | _ <;>
        rw [hset1] at h <;> simp only at h
      rotate_left
      · exact absurd h (by simp)
      · exact absurd h (by simp)
      obtain ⟨hchk2, hoth2, hint2, hfb2, htr2⟩ := bankSend_ok hbs2
      obtain ⟨hfs0, hfs1, hbal4, htr4, hfrac4⟩ := SetFractionalBalance_ok hset1
      obtain ⟨hfr0, hfr1, hbal5, htr5, hfrac5⟩ := SetFractionalBalance_ok h
      refine ⟨true, false, fs', fr', a / ConversionFactor, iff_of_true rfl hbneg,
        iff_of_false (by simp) (by omega), by simp [hfseq], by simp [hfreq],
        by rw [if_neg (by decide : ¬((true && false) = true))], hfs, hfd,
        hfs0, hfs1, hfr0, hfr1, ?_, ?_, ?_, ?_, ?_, ?_, ?_⟩
      · intro z
        rw [hfrac5 z, hfrac4 z, hfb2]
      · intro d z hd
        rw [hbal5, hbal4]
        exact hoth2 d z hd
      · intro z
        rw [hbal5, hbal4, hint2 z]
        rw [if_pos (by decide : (true && !false) = true),
            if_neg (by decide : ¬((!true && false) = true))]
        omega
      · rw [htr5, htr4, htr2]
        rw [if_neg hdm, if_pos (by decide : (true && !false) = true),
            if_neg (by decide : ¬((!true && false) = true))]
        simp
      · intro h0
        exact absurd h0 hdm
      · intro _
        have h2 := hchk2
        omega
      · intro hx
        exact absurd hx (by decide)
  · -- no borrow, carry
    rw [if_neg (by decide : ¬((false && true) = true))] at h
    by_cases hdm : 0 < a / ConversionFactor
    · rw [if_pos hdm] at h
      rcases hbs1 : bankSend s src dst Denom.dint (a / ConversionFactor) with s₁ | ⟨e1, est1⟩ | _ <;>
        rw [hbs1] at h <;> simp only [Outcome.mapErrWith] at h
      rotate_left
      · exact absurd h (by simp)
      · exact absurd h (by simp)
      rw [if_neg (by decide : ¬((false && !true) = true))] at h
      simp only at h
      rw [if_pos (by decide : (!false && true) = true)] at h
      rcases hbs3 : bankSend s₁ R dst Denom.dint 1 with s₃ | ⟨e2, est2⟩ | _ <;>
        rw [hbs3] at h <;> simp only at h
      rotate_left
      · exact absurd h (by simp)
      · exact absurd h (by simp)
      rcases hset1 : SetFractionalBalance s₃ src fs' with s₄ | ⟨e3, est3⟩ | _ <;>
        rw [hset1] at h <;> simp only at h
      rotate_left
      · exact absurd h (by simp)
      · exact absurd h (by simp)
      obtain ⟨hchk1, hoth1, hint1, hfb1, htr1⟩ := bankSend_ok hbs1
      obtain ⟨hchk3, hoth3, hint3, hfb3, htr3⟩ := bankSend_ok hbs3
      obtain ⟨hfs0, hfs1, hbal4, htr4, hfrac4⟩ := SetFractionalBalance_ok hset1
      obtain ⟨hfr0, hfr1, hbal5, htr5, hfrac5⟩ := SetFractionalBalance_ok h
      refine ⟨false, true, fs', fr', a / ConversionFactor,
        iff_of_false (by simp) (by omega), iff_of_true rfl hcge,
        by simp [hfseq], by simp [hfreq],
        by rw [if_neg (by decide : ¬((false && true) = true))], hfs, hfd,
        hfs0, hfs1, hfr0, hfr1, ?_, ?_, ?_, ?_, ?_, ?_, ?_⟩
      · intro z
        rw [hfrac5 z, hfrac4 z, hfb3, hfb1]
      · intro d z hd
        rw [hbal5, hbal4, hoth3 d z hd]
        exact hoth1 d z hd
      · intro z
        rw [hbal5, hbal4, hint3 z, hint1 z]
        rw [if_neg (by decide : ¬((false && !true) = true)),
            if_pos (by decide : (!false && true) = true)]
        omega
      · rw [htr5, htr4, htr3, htr1]
        rw [if_pos hdm, if_neg (by decide : ¬((false && !true) = true)),
            if_pos (by decide : (!false && true) = true)]
        simp
      · intro _
        exact hchk1
      · intro hx
        exact absurd hx (by decide)
      · intro _
        have h3 := hchk3
        rw [hint1 R] at h3
        exact h3
    · rw [if_neg hdm] at h
      simp only at h
      have hdm0 : a / ConversionFactor = 0 := by omega
      rw [if_neg (by decide : ¬((false && !true) = true))] at h
      simp only at h
      rw [if_pos (by decide : (!false && true) = true)] at h
      rcases hbs3 : bankSend s R dst Denom.dint 1 with s₃ | ⟨e2, est2⟩ | _ <;>
        rw [hbs3] at h <;> simp only at h
      rotate_left
      · exact absurd h (by simp)
      · exact absurd h (by simp)
      rcases hset1 : SetFractionalBalance s₃ src fs' with s₄ | ⟨e3, est3⟩ | _ <;>
        rw [hset1] at h <;> simp only at h
      rotate_left
      · exact absurd h (by simp)
      · exact absurd h (by simp)
      obtain ⟨hchk3, hoth3, hint3, hfb3, htr3⟩ := bankSend_ok hbs3
      obtain ⟨hfs0, hfs1, hbal4, htr4, hfrac4⟩ := SetFractionalBalance_ok hset1
      obtain ⟨hfr0, hfr1, hbal5, htr5, hfrac5⟩ := SetFractionalBalance_ok h
      refine ⟨false, true, fs', fr', a / ConversionFactor,
        iff_of_false (by simp) (by omega), iff_of_true rfl hcge,
        by simp [hfseq], by simp [hfreq],
        by rw [if_neg (by decide : ¬((false && true) = true))], hfs, hfd,
        hfs0, hfs1, hfr0, hfr1, ?_, ?_, ?_, ?_, ?_, ?_, ?_⟩
      · intro z
        rw [hfrac5 z, hfrac4 z, hfb3]
      · intro d z hd
        rw [hbal5, hbal4]
        exact hoth3 d z hd
      · intro z
        rw [hbal5, hbal4, hint3 z]
        rw [if_neg (by decide : ¬((false && !true) = true)),
            if_pos (by decide : (!false && true) = true)]
        omega
      · rw [htr5, htr4, htr3]
        rw [if_neg hdm, if_neg (by decide : ¬((false && !true) = true)),
            if_pos (by decide : (!false && true) = true)]
        simp
      · intro h0
        exact absurd h0 hdm
      · intro hx
        exact absurd hx (by decide)
      · intro _
        have h3 := hchk3
        omega
  · -- no borrow, no carry
    rw [if_neg (by decide : ¬((false && false) = true))] at h
    by_cases hdm : 0 < a / ConversionFactor
    · rw [if_pos hdm] at h
      rcases hbs1 : bankSend s src dst Denom.dint (a / ConversionFactor) with s₁ | ⟨e1, est1⟩ | _ <;>
        rw [hbs1] at h <;> simp only [Outcome.mapErrWith] at h
      rotate_left
      · exact absurd h (by simp)
      · exact absurd h (by simp)
      rw [if_neg (by decide : ¬((false && !false) = true))] at h
      simp only at h
      rw [if_neg (by decide : ¬((!false && false) = true))] at h
      simp only at h
      rcases hset1 : SetFractionalBalance s₁ src fs' with s₄ | ⟨e3, est3⟩ | _ <;>
        rw [hset1] at h <;> simp only at h
      rotate_left
      · exact absurd h (by simp)
      · exact absurd h (by simp)
      obtain ⟨hchk1, hoth1, hint1, hfb1, htr1⟩ := bankSend_ok hbs1
      obtain ⟨hfs0, hfs1, hbal4, htr4, hfrac4⟩ := SetFractionalBalance_ok hset1
      obtain ⟨hfr0, hfr1, hbal5, htr5, hfrac5⟩ := SetFractionalBalance_ok h
      refine ⟨false, false, fs', fr', a / ConversionFactor,
        iff_of_false (by simp) (by omega), iff_of_false (by simp) (by omega),
        by simp [hfseq], by simp [hfreq],
        by rw [if_neg (by decide : ¬((false && false) = true))], hfs, hfd,
        hfs0, hfs1, hfr0, hfr1, ?_, ?_, ?_, ?_, ?_, ?_, ?_⟩
      · intro z
        rw [hfrac5 z, hfrac4 z, hfb1]
      · intro d z hd
        rw [hbal5, hbal4]
        exact hoth1 d z hd
      · intro z
        rw [hbal5, hbal4, hint1 z]
        rw [if_neg (by decide : ¬((false && !false) = true)),
            if_neg (by decide : ¬((!false && false) = true))]
        omega
      · rw [htr5, htr4, htr1]
        rw [if_pos hdm, if_neg (by decide : ¬((false && !false) = true)),
            if_neg (by decide : ¬((!false && false) = true))]
        simp
      · intro _
        exact hchk1
      · intro hx
        exact absurd hx (by decide)
      · intro hx
        exact absurd hx (by decide)
    · rw [if_neg hdm] at h
      simp only at h
      have hdm0 : a / ConversionFactor = 0 := by omega
      rw [if_neg (by decide : ¬((false && !false) = true))] at h
      simp only at h
      rw [if_neg (by decide : ¬((!false && false) = true))] at h
      simp only at h
      rcases hset1 : SetFractionalBalance s src fs' with s₄ | ⟨e3, est3⟩ | _ <;>
        rw [hset1] at h <;> simp only at h
      rotate_left
      · exact absurd h (by simp)
      · exact absurd h (by simp)
      obtain ⟨hfs0, hfs1, hbal4, htr4, hfrac4⟩ := SetFractionalBalance_ok hset1
      obtain ⟨hfr0, hfr1, hbal5, htr5, hfrac5⟩ := SetFractionalBalance_ok h
      refine ⟨false, false, fs', fr', a / ConversionFactor,
        iff_of_false (by simp) (by omega), iff_of_false (by simp) (by omega),
        by simp [hfseq], by simp [hfreq],
        by rw [if_neg (by decide : ¬((false && false) = true))], hfs, hfd,
        hfs0, hfs1, hfr0, hfr1, ?_, ?_, ?_, ?_, ?_, ?_, ?_⟩
      · intro z
        rw [hfrac5 z, hfrac4 z]
      · intro d z hd
        rw [hbal5, hbal4]
      · intro z
        rw [hbal5, hbal4]
        rw [if_neg (by decide : ¬((false && !false) = true)),
            if_neg (by decide : ¬((!false && false) = true))]
        omega
      · rw [htr5, htr4]
        rw [if_neg hdm, if_neg (by decide : ¬((false && !false) = true)),
            if_neg (by decide : ¬((!false && false) = true))]
        simp
      · intro h0
        exact absurd h0 hdm
      · intro hx
        exact absurd hx (by decide)
      · intro hx
        exact absurd hx (by decide)

/-- A successful extended-coin transfer between accounts distinct from the
reserve preserves the state invariants and the total extended supply over
non-reserve accounts. -/
theorem sendExtendedCoins_preserves [Fintype α] {R src dst : α} {s s' : State α} {a : ℤ}
    (hinv : Inv R s) (hsrc : src ≠ R) (hdst : dst ≠ R) (ha : 0 < a)
    (h : sendExtendedCoins R s src dst a = .ok s') :
    Inv R s' ∧ totalSupply s' R = totalSupply s R := by
  by_cases hne : src = dst
  · subst hne
    unfold sendExtendedCoins at h
    rw [if_pos rfl] at h
    injection h with h
    subst h
    exact ⟨hinv, rfl⟩
  · obtain ⟨b, c, fs', fr', dmv, hbiff, hciff, hfseq, hfreq, hdmv, hfs, hfd,
      hfs0, hfs1, hfr0, hfr1, hFrac, hOth, hInt, hTrace, hChk1, hChk2, hChk3⟩ :=
      sendExtendedCoins_ok_char hne ha h
    obtain ⟨hrange, hR0, hnn, hsolv⟩ := hinv
    have hCeq := ConversionFactor_eq
    have hCpos : (0:ℤ) < ConversionFactor := by omega
    have hinn : 0 ≤ a / ConversionFactor := Int.ediv_nonneg ha.le hCpos.le
    have hps : 0 ≤ a % ConversionFactor := Int.emod_nonneg a (by omega)
    have hplt : a % ConversionFactor < ConversionFactor := Int.emod_lt_of_pos a hCpos
    have hRd : ¬(R = dst) := fun hh => hdst hh.symm
    have hRs : ¬(R = src) := fun hh => hsrc hh.symm
    have hfracRange : ∀ z, 0 ≤ s'.fracBal z ∧ s'.fracBal z < ConversionFactor := by
      intro z
      rw [hFrac z]
      by_cases h1 : z = dst
      · rw [if_pos h1]; exact ⟨hfr0, hfr1⟩
      · rw [if_neg h1]
        by_cases h2 : z = src
        · rw [if_pos h2]; exact ⟨hfs0, hfs1⟩
        · rw [if_neg h2]; exact hrange z
    have hR0' : s'.fracBal R = 0 := by
      rw [hFrac R, if_neg hRd, if_neg hRs]
      exact hR0
    have hfsum : fracSum s' R =
        fracSum s R + (fr' - s.fracBal dst) + (fs' - s.fracBal src) := by
      unfold fracSum
      exact sum_two_point_erase s.fracBal s'.fracBal R src dst fs' fr'
        hsrc hdst hne (fun z _ => hFrac z)
    have hdec : a = ConversionFactor * (a / ConversionFactor) + a % ConversionFactor :=
      (Int.ediv_add_emod a ConversionFactor).symm
    cases b <;> cases c
    · -- no borrow, no carry
      rw [if_neg (by decide : ¬((false && false) = true))] at hdmv
      rw [ite_bool_ff] at hfseq
      rw [ite_bool_ff] at hfreq
      have hBal : ∀ z, s'.bal Denom.dint z = s.bal Denom.dint z
          + (if z = dst then dmv else 0) - (if z = src then dmv else 0) := by
        intro z
        rw [hInt z, if_neg (by decide : ¬((false && !false) = true)),
            if_neg (by decide : ¬((!false && false) = true))]
        omega
      have hnn' : ∀ z, 0 ≤ s'.bal Denom.dint z := by
        intro z
        rw [hBal z]
        by_cases hz1 : z = dst
        · simp only [hz1, eq_self_iff_true, if_true,
            eq_false (fun hh : dst = src => hne hh.symm), if_false]
          have h0 := hnn dst
          omega
        · simp only [eq_false hz1, if_false]
          by_cases hz2 : z = src
          · simp only [hz2, eq_self_iff_true, if_true]
            by_cases hdm : 0 < dmv
            · have hc1 := hChk1 hdm
              omega
            · have h0 := hnn src
              omega
          · simp only [eq_false hz2, if_false]
            have h0 := hnn z
            omega
      have hbalR : s'.bal Denom.dint R = s.bal Denom.dint R := by
        rw [hBal R, if_neg hRd, if_neg hRs]
        ring
      have hsolv' : fracSum s' R ≤ s'.bal Denom.dint R * ConversionFactor := by
        rw [hfsum, hbalR, hfseq, hfreq]
        omega
      have hE : ∀ z, z ≠ R → extBal s' z =
          if z = dst then extBal s dst + a
          else if z = src then extBal s src - a else extBal s z := by
        intro z hz
        unfold extBal
        rw [hBal z, hFrac z]
        by_cases hz1 : z = dst
        · simp only [hz1, eq_self_iff_true, if_true,
            eq_false (fun hh : dst = src => hne hh.symm), if_false]
          rw [hfreq, hdmv, hCeq]
          omega
        · simp only [eq_false hz1, if_false]
          by_cases hz2 : z = src
          · simp only [hz2, eq_self_iff_true, if_true]
            rw [hfseq, hdmv, hCeq]
            omega
          · simp only [eq_false hz2, if_false]
            ring
      have hsupply : totalSupply s' R = totalSupply s R := by
        unfold totalSupply
        rw [sum_two_point_erase (extBal s) (extBal s') R src dst
          (extBal s src - a) (extBal s dst + a) hsrc hdst hne hE]
        ring
      exact ⟨⟨hfracRange, hR0', hnn', hsolv'⟩, hsupply⟩
    · -- no borrow, carry from the reserve
      rw [if_neg (by decide : ¬((false && true) = true))] at hdmv
      rw [ite_bool_ff] at hfseq
      rw [ite_bool_tt] at hfreq
      have hBal : ∀ z, s'.bal Denom.dint z = s.bal Denom.dint z
          + (if z = dst then dmv else 0) - (if z = src then dmv else 0)
          + ((if z = dst then 1 else 0) - (if z = R then 1 else 0)) := by
        intro z
        rw [hInt z, if_neg (by decide : ¬((false && !true) = true)),
            if_pos (by decide : (!false && true) = true)]
        omega
      have hChk3' := hChk3 (by decide)
      rw [if_neg hRd, if_neg hRs] at hChk3'
      have hnn' : ∀ z, 0 ≤ s'.bal Denom.dint z := by
        intro z
        rw [hBal z]
        by_cases hz1 : z = dst
        · simp only [hz1, eq_self_iff_true, if_true,
            eq_false (fun hh : dst = src => hne hh.symm), if_false,
            eq_false (fun hh : dst = R => hdst hh), if_false]
          have h0 := hnn dst
          omega
        · simp only [eq_false hz1, if_false]
          by_cases hz2 : z = src
          · simp only [hz2, eq_self_iff_true, if_true,
              eq_false (fun hh : src = R => hsrc hh), if_false]
            by_cases hdm : 0 < dmv
            · have hc1 := hChk1 hdm
              omega
            · have h0 := hnn src
              omega
          · simp only [eq_false hz2, if_false]
            by_cases hz3 : z = R
            · simp only [hz3, eq_self_iff_true, if_true]
              omega
            · simp only [eq_false hz3, if_false]
              have h0 := hnn z
              omega
      have hbalR : s'.bal Denom.dint R = s.bal Denom.dint R - 1 := by
        rw [hBal R]
        simp only [eq_false hRd, eq_false hRs, if_false, eq_self_iff_true, if_true]
        ring
      have hsolv' : fracSum s' R ≤ s'.bal Denom.dint R * ConversionFactor := by
        rw [hfsum, hbalR, hfseq, hfreq]
        rw [hCeq] at hsolv ⊢
        omega
      have hE : ∀ z, z ≠ R → extBal s' z =
          if z = dst then extBal s dst + a
          else if z = src then extBal s src - a else extBal s z := by
        intro z hz
        unfold extBal
        rw [hBal z, hFrac z]
        by_cases hz1 : z = dst
        · simp only [hz1, eq_self_iff_true, if_true,
            eq_false (fun hh : dst = src => hne hh.symm), if_false,
            eq_false (fun hh : dst = R => hdst hh), if_false]
          rw [hfreq, hdmv, hCeq]
          omega
        · simp only [eq_false hz1, if_false]
          by_cases hz2 : z = src
          · simp only [hz2, eq_self_iff_true, if_true,
              eq_false (fun hh : src = R => hsrc hh), if_false]
            rw [hfseq, hdmv, hCeq]
            omega
          · simp only [eq_false hz2, eq_false hz, if_false]
            ring
      have hsupply : totalSupply s' R = totalSupply s R := by
        unfold totalSupply
        rw [sum_two_point_erase (extBal s) (extBal s') R src dst
          (extBal s src - a) (extBal s dst + a) hsrc hdst hne hE]
        ring
      exact ⟨⟨hfracRange, hR0', hnn', hsolv'⟩, hsupply⟩
    · -- borrow to the reserve, no carry
      rw [if_neg (by decide : ¬((true && false) = true))] at hdmv
      rw [ite_bool_tt] at hfseq
      rw [ite_bool_ff] at hfreq
      have hBal : ∀ z, s'.bal Denom.dint z = s.bal Denom.dint z
          + (if z = dst then dmv else 0) - (if z = src then dmv else 0)
          + ((if z = R then 1 else 0) - (if z = src then 1 else 0)) := by
        intro z
        rw [hInt z, if_pos (by decide : (true && !false) = true),
            if_neg (by decide : ¬((!true && false) = true))]
        omega
      have hChk2' := hChk2 (by decide)
      have hnn' : ∀ z, 0 ≤ s'.bal Denom.dint z := by
        intro z
        rw [hBal z]
        by_cases hz1 : z = dst
        · simp only [hz1, eq_self_iff_true, if_true,
            eq_false (fun hh : dst = src => hne hh.symm), if_false,
            eq_false (fun hh : dst = R => hdst hh), if_false]
          have h0 := hnn dst
          omega
        · simp only [eq_false hz1, if_false]
          by_cases hz2 : z = src
          · simp only [hz2, eq_self_iff_true, if_true,
              eq_false (fun hh : src = R => hsrc hh), if_false]
            omega
          · simp only [eq_false hz2, if_false]
            by_cases hz3 : z = R
            · simp only [hz3, eq_self_iff_true, if_true]
              have h0 := hnn R
              omega
            · simp only [eq_false hz3, if_false]
              have h0 := hnn z
              omega
      have hbalR : s'.bal Denom.dint R = s.bal Denom.dint R + 1 := by
        rw [hBal R]
        simp only [eq_false hRd, eq_false hRs, if_false, eq_self_iff_true, if_true]
        ring
      have hsolv' : fracSum s' R ≤ s'.bal Denom.dint R * ConversionFactor := by
        rw [hfsum, hbalR, hfseq, hfreq]
        rw [hCeq] at hsolv ⊢
        omega
      have hE : ∀ z, z ≠ R → extBal s' z =
          if z = dst then extBal s dst + a
          else if z = src then extBal s src - a else extBal s z := by
        intro z hz
        unfold extBal
        rw [hBal z, hFrac z]
        by_cases hz1 : z = dst
        · simp only [hz1, eq_self_iff_true, if_true,
            eq_false (fun hh : dst = src => hne hh.symm), if_false,
            eq_false (fun hh : dst = R => hdst hh), if_false]
          rw [hfreq, hdmv, hCeq]
          omega
        · simp only [eq_false hz1, if_false]
          by_cases hz2 : z = src
          · simp only [hz2, eq_self_iff_true, if_true,
              eq_false (fun hh : src = R => hsrc hh), if_false]
            rw [hfseq, hdmv, hCeq]
            omega
          · simp only [eq_false hz2, eq_false hz, if_false]
            ring
      have hsupply : totalSupply s' R = totalSupply s R := by
        unfold totalSupply
        rw [sum_two_point_erase (extBal s) (extBal s') R src dst
          (extBal s src - a) (extBal s dst + a) hsrc hdst hne hE]
        ring
      exact ⟨⟨hfracRange, hR0', hnn', hsolv'⟩, hsupply⟩
    · -- borrow and carry, direct netting
      rw [if_pos (by decide : (true && true) = true)] at hdmv
      rw [ite_bool_tt] at hfseq
      rw [ite_bool_tt] at hfreq
      have hBal : ∀ z, s'.bal Denom.dint z = s.bal Denom.dint z
          + (if z = dst then dmv else 0) - (if z = src then dmv else 0) := by
        intro z
        rw [hInt z, if_neg (by decide : ¬((true && !true) = true)),
            if_neg (by decide : ¬((!true && true) = true))]
        omega
      have hnn' : ∀ z, 0 ≤ s'.bal Denom.dint z := by
        intro z
        rw [hBal z]
        by_cases hz1 : z = dst
        · simp only [hz1, eq_self_iff_true, if_true,
            eq_false (fun hh : dst = src => hne hh.symm), if_false]
          have h0 := hnn dst
          omega
        · simp only [eq_false hz1, if_false]
          by_cases hz2 : z = src
          · simp only [hz2, eq_self_iff_true, if_true]
            have hc1 := hChk1 (by omega)
            omega
          · simp only [eq_false hz2, if_false]
            have h0 := hnn z
            omega
      have hbalR : s'.bal Denom.dint R = s.bal Denom.dint R := by
        rw [hBal R]
        simp only [eq_false hRd, eq_false hRs, if_false]
        ring
      have hsolv' : fracSum s' R ≤ s'.bal Denom.dint R * ConversionFactor := by
        rw [hfsum, hbalR, hfseq, hfreq]
        omega
      have hE : ∀ z, z ≠ R → extBal s' z =
          if z = dst then extBal s dst + a
          else if z = src then extBal s src - a else extBal s z := by
        intro z hz
        unfold extBal
        rw [hBal z, hFrac z]
        by_cases hz1 : z = dst
        · simp only [hz1, eq_self_iff_true, if_true,
            eq_false (fun hh : dst = src => hne hh.symm), if_false]
          rw [hfreq, hdmv, hCeq]
          omega
        · simp only [eq_false hz1, if_false]
          by_cases hz2 : z = src
          · simp only [hz2, eq_self_iff_true, if_true]
            rw [hfseq, hdmv, hCeq]
            omega
          · simp only [eq_false hz2, if_false]
            ring
      have hsupply : totalSupply s' R = totalSupply s R := by
        unfold totalSupply
        rw [sum_two_point_erase (extBal s) (extBal s') R src dst
          (extBal s src - a) (extBal s dst + a) hsrc hdst hne hE]
        ring
      exact ⟨⟨hfracRange, hR0', hnn', hsolv'⟩, hsupply⟩

theorem bankSendCoins_ok_facts {cs : Coins} {s s' : State α} {x y : α}
    (h : bankSendCoins s x y cs = .ok s') :
    s'.fracBal = s.fracBal ∧
    (∀ d z, z ≠ x → z ≠ y → s'.bal d z = s.bal d z) ∧
    (x = y → ∀ d z, s'.bal d z = s.bal d z) ∧
    ((∀ c ∈ cs, 0 < c.2) → (∀ z, 0 ≤ s.bal Denom.dint z) →
      ∀ z, 0 ≤ s'.bal Denom.dint z) := by
  induction cs generalizing s with
  | nil =>
    unfold bankSendCoins at h
    injection h with h
    subst h
    exact ⟨rfl, fun _ _ _ _ => rfl, fun _ _ _ => rfl, fun _ hq => hq⟩
  | cons cz rest ih =>
    unfold bankSendCoins at h
    rcases hbs : bankSend s x y cz.1 cz.2 with s₁ | ⟨e, est⟩ | _ <;>
      rw [hbs] at h <;> simp only at h
    rotate_left
    · exact absurd h (by simp)
    · exact absurd h (by simp)
    obtain ⟨hchk, hoth, hint, hfb, htr⟩ := bankSend_ok hbs
    obtain ⟨ihf, ihoth, ihself, ihnn⟩ := ih h
    refine ⟨ihf.trans hfb, ?_, ?_, ?_⟩
    · intro d z hzx hzy
      rw [ihoth d z hzx hzy]
      by_cases hd : d = cz.1
      · subst hd
        rw [hint z, if_neg hzy, if_neg hzx]
        ring
      · exact hoth d z hd
    · intro hxy d z
      rw [ihself hxy d z]
      by_cases hd : d = cz.1
      · subst hd
        rw [hint z]
        subst hxy
        by_cases hz : z = x
        · rw [if_pos hz]
          ring
        · rw [if_neg hz]
          ring
      · exact hoth d z hd
    · intro hpos hnn z
      refine ihnn (fun c hc => hpos c (List.mem_cons_of_mem _ hc)) ?_ z
      intro w
      by_cases hd : cz.1 = Denom.dint
      · rw [hd] at hint hchk
        rw [hint w]
        have hpos0 : 0 < cz.2 := hpos cz (List.mem_cons_self _ _)
        by_cases hw1 : w = y
        · rw [if_pos hw1]
          by_cases hw2 : w = x
          · rw [if_pos hw2]
            have h0 := hnn w
            omega
          · rw [if_neg hw2]
            have h0 := hnn w
            omega
        · rw [if_neg hw1]
          by_cases hw2 : w = x
          · rw [if_pos hw2, hw2]
            omega
          · rw [if_neg hw2]
            have h0 := hnn w
            omega
      · rw [hoth Denom.dint w (fun hh => hd hh.symm)]
        exact hnn w

theorem bankSendCoins_ok_sum [Fintype α] {cs : Coins} {s s' : State α} {x y : α}
    (h : bankSendCoins s x y cs = .ok s') (d : Denom) :
    ∑ z, s'.bal d z = ∑ z, s.bal d z := by
  induction cs generalizing s with
  | nil =>
    unfold bankSendCoins at h
    injection h with h
    subst h
    rfl
  | cons cz rest ih =>
    unfold bankSendCoins at h
    rcases hbs : bankSend s x y cz.1 cz.2 with s₁ | ⟨e, est⟩ | _ <;>
      rw [hbs] at h <;> simp only at h
    rotate_left
    · exact absurd h (by simp)
    · exact absurd h (by simp)
    obtain ⟨hchk, hoth, hint, hfb, htr⟩ := bankSend_ok hbs
    rw [ih h]
    by_cases hd : d = cz.1
    · subst hd
      rw [Finset.sum_congr rfl (fun z _ => hint z)]
      rw [Finset.sum_sub_distrib, Finset.sum_add_distrib,
          Finset.sum_ite_eq' Finset.univ y (fun _ => cz.2),
          Finset.sum_ite_eq' Finset.univ x (fun _ => cz.2),
          if_pos (Finset.mem_univ y), if_pos (Finset.mem_univ x)]
      ring
    · exact Finset.sum_congr rfl (fun z _ => hoth d z hd)

theorem bankSendCoins_preserves [Fintype α] {R x y : α} {s s' : State α} {cs : Coins}
    (hinv : Inv R s) (hx : x ≠ R) (hy : y ≠ R) (hpos : ∀ c ∈ cs, 0 < c.2)
    (h : bankSendCoins s x y cs = .ok s') :
    Inv R s' ∧ totalSupply s' R = totalSupply s R := by
  obtain ⟨hf, hoth, hself, hnnf⟩ := bankSendCoins_ok_facts h
  obtain ⟨hrange, hR0, hnn, hsolv⟩ := hinv
  have hbalR : s'.bal Denom.dint R = s.bal Denom.dint R :=
    hoth _ R (fun hh => hx hh.symm) (fun hh => hy hh.symm)
  have hfs : fracSum s' R = fracSum s R := by
    unfold fracSum
    exact Finset.sum_congr rfl (fun z _ => by rw [hf])
  have hsplit : ∀ (t : State α),
      ∑ z ∈ Finset.univ.erase R, extBal t z =
        (∑ z ∈ Finset.univ.erase R, t.bal Denom.dint z) * ConversionFactor
          + ∑ z ∈ Finset.univ.erase R, t.fracBal z := by
    intro t
    unfold extBal
    rw [Finset.sum_add_distrib, Finset.sum_mul]
  refine ⟨⟨fun z => by rw [hf]; exact hrange z, by rw [hf]; exact hR0,
    hnnf hpos hnn, by rw [hfs, hbalR]; exact hsolv⟩, ?_⟩
  unfold totalSupply
  rw [hsplit, hsplit, hf]
  have h2 : ∑ z ∈ Finset.univ.erase R, s'.bal Denom.dint z =
      ∑ z ∈ Finset.univ.erase R, s.bal Denom.dint z := by
    rw [Finset.sum_erase_eq_sub (Finset.mem_univ R),
        Finset.sum_erase_eq_sub (Finset.mem_univ R),
        bankSendCoins_ok_sum h Denom.dint, hbalR]
  rw [h2]

def passthroughOf (amt : Coins) : Coins :=
  if 0 < amountOf amt Denom.dext then removeDenom amt Denom.dext else amt

def fullEmissionOf (amt : Coins) : ℤ :=
  amountOf amt Denom.dext + amountOf amt Denom.dint * ConversionFactor

theorem SendCoins_ok_decomp {R src dst : α} {s s' : State α} {amt : Coins}
    {evs : List (Event α)}
    (h : SendCoins R s src dst amt = (.ok s', evs)) :
    IsValid amt ∧
    ∃ s₁ : State α,
      ((IsAllPositive (passthroughOf amt) = true ∧
          bankSendCoins s src dst (passthroughOf amt) = .ok s₁) ∨
        (IsAllPositive (passthroughOf amt) = false ∧ s₁ = s)) ∧
      ((0 < amountOf amt Denom.dext ∧
          sendExtendedCoins R s₁ src dst (amountOf amt Denom.dext) = .ok s') ∨
        (¬0 < amountOf amt Denom.dext ∧ s' = s₁)) ∧
      evs = (if fullEmissionOf amt = 0 then []
             else [Event.transfer dst src [(Denom.dext, fullEmissionOf amt)],
                   Event.coinSpent src [(Denom.dext, fullEmissionOf amt)],
                   Event.coinReceived dst [(Denom.dext, fullEmissionOf amt)]]) := by
  unfold SendCoins at h
  by_cases hv : IsValid amt
  swap
  · rw [if_pos hv] at h
    exact absurd h (by simp)
  rw [if_neg (not_not_intro hv)] at h
  simp only at h
  refine ⟨hv, ?_⟩
  unfold passthroughOf fullEmissionOf
  by_cases hall : IsAllPositive (if 0 < amountOf amt Denom.dext
      then removeDenom amt Denom.dext else amt) = true
  · rw [if_pos hall] at h
    rcases hpt : bankSendCoins s src dst
        (if 0 < amountOf amt Denom.dext then removeDenom amt Denom.dext else amt) with
      s₁ | ⟨e, est⟩ | _ <;> rw [hpt] at h <;> simp only at h
    rotate_left
    · exact absurd h (by simp)
    · exact absurd h (by simp)
    refine ⟨s₁, Or.inl ⟨hall, rfl⟩, ?_⟩
    by_cases hext : 0 < amountOf amt Denom.dext
    · rw [if_pos hext] at h
      rcases hse : sendExtendedCoins R s₁ src dst (amountOf amt Denom.dext) with
        s₂ | ⟨e, est⟩ | _ <;> rw [hse] at h <;> simp only at h
      rotate_left
      · exact absurd h (by simp)
      · exact absurd h (by simp)
      by_cases hfe : amountOf amt Denom.dext + amountOf amt Denom.dint * ConversionFactor = 0
      · rw [if_pos hfe] at h
        have h1 := congrArg Prod.fst h
        have h2 := congrArg Prod.snd h
        simp only at h1 h2
        injection h1 with h1
        exact ⟨Or.inl ⟨hext, by rw [h1]⟩, by rw [if_pos hfe]; exact h2.symm⟩
      · rw [if_neg hfe] at h
        have h1 := congrArg Prod.fst h
        have h2 := congrArg Prod.snd h
        simp only at h1 h2
        injection h1 with h1
        exact ⟨Or.inl ⟨hext, by rw [h1]⟩, by rw [if_neg hfe]; exact h2.symm⟩
    · rw [if_neg hext] at h
      simp only at h
      by_cases hfe : amountOf amt Denom.dext + amountOf amt Denom.dint * ConversionFactor = 0
      · rw [if_pos hfe] at h
        have h1 := congrArg Prod.fst h
        have h2 := congrArg Prod.snd h
        simp only at h1 h2
        injection h1 with h1
        exact ⟨Or.inr ⟨hext, h1.symm⟩, by rw [if_pos hfe]; exact h2.symm⟩
      · rw [if_neg hfe] at h
        have h1 := congrArg Prod.fst h
        have h2 := congrArg Prod.snd h
        simp only at h1 h2
        injection h1 with h1
        exact ⟨Or.inr ⟨hext, h1.symm⟩, by rw [if_neg hfe]; exact h2.symm⟩
  · rw [if_neg hall] at h
    simp only at h
    refine ⟨s, Or.inr ⟨(Bool.not_eq_true _) ▸ hall, rfl⟩, ?_⟩
    by_cases hext : 0 < amountOf amt Denom.dext
    · rw [if_pos hext] at h
      rcases hse : sendExtendedCoins R s src dst (amountOf amt Denom.dext) with
        s₂ | ⟨e, est⟩ | _ <;> rw [hse] at h <;> simp only at h
      rotate_left
      · exact absurd h (by simp)
      · exact absurd h (by simp)
      by_cases hfe : amountOf amt Denom.dext + amountOf amt Denom.dint * ConversionFactor = 0
      · rw [if_pos hfe] at h
        have h1 := congrArg Prod.fst h
        have h2 := congrArg Prod.snd h
        simp only at h1 h2
        injection h1 with h1
        exact ⟨Or.inl ⟨hext, by rw [h1]⟩, by rw [if_pos hfe]; exact h2.symm⟩
      · rw [if_neg hfe] at h
        have h1 := congrArg Prod.fst h
        have h2 := congrArg Prod.snd h
        simp only at h1 h2
        injection h1 with h1
        exact ⟨Or.inl ⟨hext, by rw [h1]⟩, by rw [if_neg hfe]; exact h2.symm⟩
    · rw [if_neg hext] at h
      simp only at h
      by_cases hfe : amountOf amt Denom.dext + amountOf amt Denom.dint * ConversionFactor = 0
      · rw [if_pos hfe] at h
        have h1 := congrArg Prod.fst h
        have h2 := congrArg Prod.snd h
        simp only at h1 h2
        injection h1 with h1
        exact ⟨Or.inr ⟨hext, h1.symm⟩, by rw [if_pos hfe]; exact h2.symm⟩
      · rw [if_neg hfe] at h
        have h1 := congrArg Prod.fst h
        have h2 := congrArg Prod.snd h
        simp only at h1 h2
        injection h1 with h1
        exact ⟨Or.inr ⟨hext, h1.symm⟩, by rw [if_neg hfe]; exact h2.symm⟩

theorem SendCoins_preserves [Fintype α] {R src dst : α} {s s' : State α} {amt : Coins}
    {evs : List (Event α)}
    (hinv : Inv R s) (hsrc : src ≠ R) (hdst : dst ≠ R)
    (h : SendCoins R s src dst amt = (.ok s', evs)) :
    Inv R s' ∧ totalSupply s' R = totalSupply s R := by
  obtain ⟨hv, s₁, hstage1, hstage2, hevs⟩ := SendCoins_ok_decomp h
  have hmid : Inv R s₁ ∧ totalSupply s₁ R = totalSupply s R := by
    rcases hstage1 with ⟨hall, hpt⟩ | ⟨-, rfl⟩
    · refine bankSendCoins_preserves hinv hsrc hdst ?_ hpt
      intro c hc
      have hmem : c ∈ amt := by
        unfold passthroughOf at hc
        by_cases hx : 0 < amountOf amt Denom.dext
        · rw [if_pos hx] at hc
          exact List.mem_of_mem_filter hc
        · rw [if_neg hx] at hc
          exact hc
      exact hv.1 c hmem
    · exact ⟨hinv, rfl⟩
  rcases hstage2 with ⟨hext, hse⟩ | ⟨-, rfl⟩
  · obtain ⟨hi2, hs2⟩ := sendExtendedCoins_preserves hmid.1 hsrc hdst hext hse
    exact ⟨hi2, hs2.trans hmid.2⟩
  · exact hmid

theorem runSends_preserves [Fintype α] {R : α} {s s' : State α}
    {calls : List (α × α × Coins)}
    (hinv : Inv R s)
    (hR : ∀ c ∈ calls, c.1 ≠ R ∧ c.2.1 ≠ R)
    (h : runSends R s calls = some s') :
    Inv R s' ∧ totalSupply s' R = totalSupply s R := by
  induction calls generalizing s with
  | nil =>
    unfold runSends at h
    injection h with h
    subst h
    exact ⟨hinv, rfl⟩
  | cons c rest ih =>
    unfold runSends at h
    rcases hsc : SendCoins R s c.1 c.2.1 c.2.2 with ⟨o, evs⟩
    rw [hsc] at h
    rcases o with s₁ | ⟨e, est⟩ | _
    · have h' : runSends R s₁ rest = some s' := h
      obtain ⟨h1, h2⟩ := SendCoins_preserves hinv
        (hR c (List.mem_cons_self _ _)).1 (hR c (List.mem_cons_self _ _)).2 hsc
      obtain ⟨h3, h4⟩ := ih h1 (fun d hd => hR d (List.mem_cons_of_mem _ hd)) h'
      exact ⟨h3, h4.trans h2⟩
    · exact Option.noConfusion h
    · exact Option.noConfusion h

/-- A successful self-transfer of the extended portion is the identity. -/
theorem sendExtendedCoins_self (R x : α) (s : State α) (a : ℤ) :
    sendExtendedCoins R s x x a = .ok s := by
  unfold sendExtendedCoins
  rw [if_pos rfl]

/-- C3: the extended-portion transfer with from = to returns success
immediately and performs no fractional-balance write and no underlying
ledger call: the result is ok with the entire store state (balances,
fractional store, and the trace of issued underlying transfers) identical
to the input state. -/
theorem claim_C3_self_transfer_short_circuit (R x : α) (s : State α) (a : ℤ) :
    sendExtendedCoins R s x x a = .ok s :=
  sendExtendedCoins_self R x s a

/-- C4: for fractional balance f and delta d in [0, C), sub returns
(f - d, false) when f ≥ d and (f - d + C, true) otherwise; add returns
(f + d, false) when f + d < C and (f + d - C, true) otherwise; and every
returned fractional balance lies in [0, C). -/
theorem claim_C4_fractional_arithmetic (f d : ℤ)
    (hf0 : 0 ≤ f) (hf : f < ConversionFactor)
    (hd0 : 0 ≤ d) (hd : d < ConversionFactor) :
    (d ≤ f → subFromFractionalBalance f d = some (f - d, false)) ∧
    (f < d → subFromFractionalBalance f d = some (f - d + ConversionFactor, true)) ∧
    (f + d < ConversionFactor → addToFractionalBalance f d = some (f + d, false)) ∧
    (ConversionFactor ≤ f + d →
      addToFractionalBalance f d = some (f + d - ConversionFactor, true)) ∧
    (∀ f' b, subFromFractionalBalance f d = some (f', b) →
      0 ≤ f' ∧ f' < ConversionFactor) ∧
    (∀ f' b, addToFractionalBalance f d = some (f', b) →
      0 ≤ f' ∧ f' < ConversionFactor) := by
  refine ⟨?_, ?_, ?_, ?_, ?_, ?_⟩
  · intro hdf
    rw [subFromFractionalBalance_lt hf hd, if_neg (by omega)]
  · intro hfd
    rw [subFromFractionalBalance_lt hf hd, if_pos (by omega)]
  · intro hsum
    rw [addToFractionalBalance_lt hf hd, if_neg (by omega)]
  · intro hsum
    rw [addToFractionalBalance_lt hf hd, if_pos hsum]
  · intro f' b hsub
    obtain ⟨-, -, hc⟩ := subFromFractionalBalance_some hsub
    rcases hc with ⟨h1, h2, -⟩ | ⟨h1, h2, -⟩ <;> omega
  · intro f' b hadd
    obtain ⟨-, -, hc⟩ := addToFractionalBalance_some hadd
    rcases hc with ⟨h1, h2, -⟩ | ⟨h1, h2, -⟩ <;> omega

/-- C4 witness: the borrow and carry branches evaluated at the concrete
inputs f = 500_000_000_000 and d = 700_000_000_000. -/
theorem claim_C4_witness :
    subFromFractionalBalance 500000000000 700000000000 =
      some (500000000000 - 700000000000 + ConversionFactor, true) ∧
    addToFractionalBalance 500000000000 700000000000 =
      some (500000000000 + 700000000000 - ConversionFactor, true) := by
  have h := claim_C4_fractional_arithmetic 500000000000 700000000000
    (by norm_num) (by norm_num [ConversionFactor])
    (by norm_num) (by norm_num [ConversionFactor])
  exact ⟨h.2.1 (by norm_num), h.2.2.2.1 (by norm_num [ConversionFactor])⟩

/-- C6: when the transactional send returns an error, the store at return
is exactly the store at entry and no events are emitted; every partial
write of the failed attempt is discarded by the ambient transaction
(modelled from the spec). -/
theorem claim_C6_error_restores_state (R src dst : α) (s sE : State α) (amt : Coins)
    (e : Err) (evs : List (Event α))
    (h : SendCoinsTx R s src dst amt = (.err e sE, evs)) :
    sE = s ∧ evs = [] := by
  unfold SendCoinsTx at h
  rcases hsc : SendCoins R s src dst amt with ⟨o, evs'⟩
  rw [hsc] at h
  rcases o with s₁ | ⟨e', est⟩ | _ <;> simp only at h
  · exact absurd h (by simp)
  · have h1 := congrArg Prod.fst h
    have h2 := congrArg Prod.snd h
    simp only at h1 h2
    injection h1 with h1e h1s
    exact ⟨h1s.symm, h2.symm⟩
  · exact absurd h (by simp)

/-- Initial state for the C6 witness: two accounts, all balances zero. -/
def c6Init : State (Fin 2) :=
  { bal := fun _ _ => 0, fracBal := fun _ => 0, trace := [] }

/-- The failing transactional send of the C6 witness. -/
def c6Run : Outcome (State (Fin 2)) × List (Event (Fin 2)) :=
  SendCoinsTx (0 : Fin 2) c6Init 1 0 [(Denom.dext, 1000000000000)]

/-- The state returned by the C6 witness run. -/
def c6Final : State (Fin 2) :=
  match c6Run.1 with
  | .ok st => st
  | .err _ st => st
  | .fatal => c6Init

/-- The error returned by the C6 witness run. -/
def c6Err : Err :=
  match c6Run.1 with
  | .err e _ => e
  | _ => Err.other 0

/-- C6 witness: a send that fails with insufficient funds returns the entry
state unchanged and emits nothing. -/
theorem claim_C6_witness : c6Final = c6Init ∧ c6Run.2 = [] :=
  claim_C6_error_restores_state (0 : Fin 2) 1 0 c6Init c6Final
    [(Denom.dext, 1000000000000)] c6Err c6Run.2 rfl

/-- C7: the facades enforce the reserve-access and blocked-address rules:
depositing into the reserve module is Unauthorized, sending from the
reserve module via the module-to-account facade is Unauthorized, sending to
a blocked recipient is Unauthorized, the module-to-module facade refuses
the reserve as recipient, and a missing module account is fatal in every
facade, not a returned error. -/
theorem claim_C7_facade_rules (env : Env α) (R : α) (s : State α) :
    (∀ (sender : α) (amt : Coins) (x : α),
      env.moduleAddr ModuleName = some x →
      SendCoinsFromAccountToModule env R s sender ModuleName amt =
        (.err .unauthorized s, [])) ∧
    (∀ (recip : α) (amt : Coins) (x : α),
      env.moduleAddr ModuleName = some x →
      SendCoinsFromModuleToAccount env R s ModuleName recip amt =
        (.err .unauthorized s, [])) ∧
    (∀ (m : String) (recip : α) (amt : Coins) (x : α),
      env.moduleAddr m = some x → env.blocked recip = true →
      SendCoinsFromModuleToAccount env R s m recip amt =
        (.err .unauthorized s, [])) ∧
    (∀ (m : String) (amt : Coins) (x y : α),
      env.moduleAddr m = some x → env.moduleAddr ModuleName = some y →
      SendCoinsFromModuleToModule env R s m ModuleName amt =
        (.err .unauthorized s, [])) ∧
    (∀ (sender : α) (m : String) (amt : Coins),
      env.moduleAddr m = none →
      SendCoinsFromAccountToModule env R s sender m amt = (.fatal, [])) ∧
    (∀ (m : String) (recip : α) (amt : Coins),
      env.moduleAddr m = none →
      SendCoinsFromModuleToAccount env R s m recip amt = (.fatal, [])) ∧
    (∀ (m m' : String) (amt : Coins),
      env.moduleAddr m = none →
      SendCoinsFromModuleToModule env R s m m' amt = (.fatal, [])) ∧
    (∀ (m m' : String) (amt : Coins) (x : α),
      env.moduleAddr m = some x → env.moduleAddr m' = none →
      SendCoinsFromModuleToModule env R s m m' amt = (.fatal, [])) := by
  refine ⟨?_, ?_, ?_, ?_, ?_, ?_, ?_, ?_⟩
  · intro sender amt x hx
    unfold SendCoinsFromAccountToModule
    rw [hx]
    simp only
    rw [if_pos trivial]
  · intro recip amt x hx
    unfold SendCoinsFromModuleToAccount
    rw [hx]
    simp only
    rw [if_pos trivial]
  · intro m recip amt x hx hb
    unfold SendCoinsFromModuleToAccount
    rw [hx]
    simp only
    by_cases hm : m = ModuleName
    · rw [if_pos hm]
    · rw [if_neg hm, if_pos hb]
  · intro m amt x y hx hy
    unfold SendCoinsFromModuleToModule
    rw [hx]
    simp only
    rw [hy]
    simp only
    rw [if_pos trivial]
  · intro sender m amt hm
    unfold SendCoinsFromAccountToModule
    rw [hm]
  · intro m recip amt hm
    unfold SendCoinsFromModuleToAccount
    rw [hm]
  · intro m m' amt hm
    unfold SendCoinsFromModuleToModule
    rw [hm]
  · intro m m' amt x hx hm
    unfold SendCoinsFromModuleToModule
    rw [hx]
    simp only
    rw [hm]

/-- Registry for the C7 and C9 witnesses: the reserve module resolves to
address 0, module "m" to address 1, "gone" is unregistered; address 2 is
blocked. -/
def c7Env : Env (Fin 3) :=
  { moduleAddr := fun m =>
      if m = ModuleName then some 0 else if m = "m" then some 1 else none
    blocked := fun z => z = 2 }

/-- All-zero store on three accounts, used by facade witnesses. -/
def c7State : State (Fin 3) :=
  { bal := fun _ _ => 0, fracBal := fun _ => 0, trace := [] }

/-- C7 witness: each facade rule evaluated at concrete inputs. -/
theorem claim_C7_witness :
    SendCoinsFromAccountToModule c7Env (0 : Fin 3) c7State 1 ModuleName [] =
      (.err .unauthorized c7State, []) ∧
    SendCoinsFromModuleToAccount c7Env (0 : Fin 3) c7State ModuleName 1 [] =
      (.err .unauthorized c7State, []) ∧
    SendCoinsFromModuleToAccount c7Env (0 : Fin 3) c7State "m" 2 [] =
      (.err .unauthorized c7State, []) ∧
    SendCoinsFromModuleToModule c7Env (0 : Fin 3) c7State "m" ModuleName [] =
      (.err .unauthorized c7State, []) ∧
    SendCoinsFromAccountToModule c7Env (0 : Fin 3) c7State 1 "gone" [] =
      (.fatal, []) ∧
    SendCoinsFromModuleToAccount c7Env (0 : Fin 3) c7State "gone" 1 [] =
      (.fatal, []) ∧
    SendCoinsFromModuleToModule c7Env (0 : Fin 3) c7State "gone" "m" [] =
      (.fatal, []) ∧
    SendCoinsFromModuleToModule c7Env (0 : Fin 3) c7State "m" "gone" [] =
      (.fatal, []) := by
  have h := claim_C7_facade_rules c7Env (0 : Fin 3) c7State
  exact ⟨h.1 1 [] 0 rfl, h.2.1 1 [] 0 rfl,
    h.2.2.1 "m" 2 [] 1 rfl (by decide),
    h.2.2.2.1 "m" [] 1 0 rfl rfl,
    h.2.2.2.2.1 1 "gone" [] rfl,
    h.2.2.2.2.2.1 "gone" 1 [] rfl,
    h.2.2.2.2.2.2.1 "gone" "m" [] rfl,
    h.2.2.2.2.2.2.2 "m" "gone" [] 1 rfl rfl⟩

theorem bankSend_err {s st : State α} {src dst : α} {d : Denom} {n : ℤ} {e : Err}
    (h : bankSend s src dst d n = .err e st) :
    e = Err.insufficientFunds d (s.bal d src) n ∧ st = s := by
  unfold bankSend at h
  by_cases hc : s.bal d src < n
  · rw [if_pos hc] at h
    injection h with h1 h2
    exact ⟨h1.symm, h2.symm⟩
  · rw [if_neg hc] at h
    exact absurd h (by simp)

theorem bankSend_ne_fatal {s : State α} {src dst : α} {d : Denom} {n : ℤ} :
    bankSend s src dst d n ≠ .fatal := by
  unfold bankSend
  split_ifs <;> simp

theorem SetFractionalBalance_ne_err {s st : State α} {addr : α} {f : ℤ} {e : Err} :
    SetFractionalBalance s addr f ≠ .err e st := by
  unfold SetFractionalBalance
  split_ifs <;> simp

/-- Every error surfaced by the extended-coin engine is the rewritten
InsufficientFunds carrying the sender's extended balance (read in the
context at the failure point) and the full requested extended amount. -/
theorem sendExtendedCoins_err {R src dst : α} {s st : State α} {a : ℤ} {e : Err}
    (h : sendExtendedCoins R s src dst a = .err e st) :
    e = Err.insufficientFunds Denom.dext (GetBalance st src Denom.dext) a := by
  unfold sendExtendedCoins at h
  by_cases hne : src = dst
  · rw [if_pos hne] at h
    exact absurd h (by simp)
  rw [if_neg hne] at h
  simp only [GetFractionalBalance] at h
  rcases hsub : subFromFractionalBalance (s.fracBal src) (a % ConversionFactor) with
    _ | ⟨fs', b⟩
  · rw [hsub] at h
    exact absurd h (by simp)
  rcases hadd : addToFractionalBalance (s.fracBal dst) (a % ConversionFactor) with
    _ | ⟨fr', c⟩
  · rw [hsub, hadd] at h
    exact absurd h (by simp)
  rw [hsub, hadd] at h
  simp only at h
  cases b <;> cases c <;>
    simp only [Bool.and_self, Bool.and_true, Bool.and_false, Bool.true_and,
      Bool.false_and, Bool.not_true, Bool.not_false, ite_bool_tt, ite_bool_ff] at h
  · -- no borrow, no carry
    by_cases hdm : 0 < a / ConversionFactor
    · rw [if_pos hdm] at h
      rcases hbs1 : bankSend s src dst Denom.dint (a / ConversionFactor) with
        s₁ | ⟨e1, est1⟩ | _ <;> rw [hbs1] at h <;> simp only [Outcome.mapErrWith] at h
      · rcases hset1 : SetFractionalBalance s₁ src fs' with s₄ | ⟨e3, est3⟩ | _ <;>
          rw [hset1] at h <;> simp only at h
        · exact absurd h SetFractionalBalance_ne_err
        · exact absurd hset1 SetFractionalBalance_ne_err
        · exact absurd h (by simp)
      · injection h with h1 h2
        obtain ⟨he1, hst1⟩ := bankSend_err hbs1
        subst h2
        rw [← h1, he1, hst1]
        rfl
      · exact absurd hbs1 bankSend_ne_fatal
    · rw [if_neg hdm] at h
      simp only at h
      rcases hset1 : SetFractionalBalance s src fs' with s₄ | ⟨e3, est3⟩ | _ <;>
        rw [hset1] at h <;> simp only at h
      · exact absurd h SetFractionalBalance_ne_err
      · exact absurd hset1 SetFractionalBalance_ne_err
      · exact absurd h (by simp)
  · -- no borrow, carry
    by_cases hdm : 0 < a / ConversionFactor
    · rw [if_pos hdm] at h
      rcases hbs1 : bankSend s src dst Denom.dint (a / ConversionFactor) with
        s₁ | ⟨e1, est1⟩ | _ <;> rw [hbs1] at h <;> simp only [Outcome.mapErrWith] at h
      · rw [if_pos trivial] at h
        rcases hbs3 : bankSend s₁ R dst Denom.dint 1 with s₃ | ⟨e2, est2⟩ | _ <;>
          rw [hbs3] at h <;> simp only at h
        · rcases hset1 : SetFractionalBalance s₃ src fs' with s₄ | ⟨e3, est3⟩ | _ <;>
            rw [hset1] at h <;> simp only at h
          · exact absurd h SetFractionalBalance_ne_err
          · exact absurd hset1 SetFractionalBalance_ne_err
          · exact absurd h (by simp)
        · exact absurd h (by simp)
        · exact absurd h (by simp)
      · injection h with h1 h2
        obtain ⟨he1, hst1⟩ := bankSend_err hbs1
        subst h2
        rw [← h1, he1, hst1]
        rfl
      · exact absurd hbs1 bankSend_ne_fatal
    · rw [if_neg hdm] at h
      simp only at h
      rw [if_pos trivial] at h
      rcases hbs3 : bankSend s R dst Denom.dint 1 with s₃ | ⟨e2, est2⟩ | _ <;>
        rw [hbs3] at h <;> simp only at h
      · rcases hset1 : SetFractionalBalance s₃ src fs' with s₄ | ⟨e3, est3⟩ | _ <;>
          rw [hset1] at h <;> simp only at h
        · exact absurd h SetFractionalBalance_ne_err
        · exact absurd hset1 SetFractionalBalance_ne_err
        · exact absurd h (by simp)
      · exact absurd h (by simp)
      · exact absurd h (by simp)
  · -- borrow, no carry
    by_cases hdm : 0 < a / ConversionFactor
    · rw [if_pos hdm] at h
      rcases hbs1 : bankSend s src dst Denom.dint (a / ConversionFactor) with
        s₁ | ⟨e1, est1⟩ | _ <;> rw [hbs1] at h <;> simp only [Outcome.mapErrWith] at h
      · rw [if_pos trivial] at h
        rcases hbs2 : bankSend s₁ src R Denom.dint 1 with s₂ | ⟨e2, est2⟩ | _ <;>
          rw [hbs2] at h <;> simp only [Outcome.mapErrWith] at h
        · rcases hset1 : SetFractionalBalance s₂ src fs' with s₄ | ⟨e3, est3⟩ | _ <;>
            rw [hset1] at h <;> simp only at h
          · exact absurd h SetFractionalBalance_ne_err
          · exact absurd hset1 SetFractionalBalance_ne_err
          · exact absurd h (by simp)
        · injection h with h1 h2
          obtain ⟨he2, hst2⟩ := bankSend_err hbs2
          subst h2
          rw [← h1, he2, hst2]
          rfl
        · exact absurd hbs2 bankSend_ne_fatal
      · injection h with h1 h2
        obtain ⟨he1, hst1⟩ := bankSend_err hbs1
        subst h2
        rw [← h1, he1, hst1]
        rfl
      · exact absurd hbs1 bankSend_ne_fatal
    · rw [if_neg hdm] at h
      simp only at h
      rw [if_pos trivial] at h
      rcases hbs2 : bankSend s src R Denom.dint 1 with s₂ | ⟨e2, est2⟩ | _ <;>
        rw [hbs2] at h <;> simp only [Outcome.mapErrWith] at h
      · rcases hset1 : SetFractionalBalance s₂ src fs' with s₄ | ⟨e3, est3⟩ | _ <;>
          rw [hset1] at h <;> simp only at h
        · exact absurd h SetFractionalBalance_ne_err
        · exact absurd hset1 SetFractionalBalance_ne_err
        · exact absurd h (by simp)
      · injection h with h1 h2
        obtain ⟨he2, hst2⟩ := bankSend_err hbs2
        subst h2
        rw [← h1, he2, hst2]
        rfl
      · exact absurd hbs2 bankSend_ne_fatal
  · -- borrow and carry
    rw [if_pos trivial] at h
    by_cases hdm : 0 < a / ConversionFactor + 1
    · rw [if_pos hdm] at h
      rcases hbs1 : bankSend s src dst Denom.dint (a / ConversionFactor + 1) with
        s₁ | ⟨e1, est1⟩ | _ <;> rw [hbs1] at h <;> simp only [Outcome.mapErrWith] at h
      · rcases hset1 : SetFractionalBalance s₁ src fs' with s₄ | ⟨e3, est3⟩ | _ <;>
          rw [hset1] at h <;> simp only at h
        · exact absurd h SetFractionalBalance_ne_err
        · exact absurd hset1 SetFractionalBalance_ne_err
        · exact absurd h (by simp)
      · injection h with h1 h2
        obtain ⟨he1, hst1⟩ := bankSend_err hbs1
        subst h2
        rw [← h1, he1, hst1]
        rfl
      · exact absurd hbs1 bankSend_ne_fatal
    · rw [if_neg hdm] at h
      simp only at h
      rcases hset1 : SetFractionalBalance s src fs' with s₄ | ⟨e3, est3⟩ | _ <;>
        rw [hset1] at h <;> simp only at h
      · exact absurd h SetFractionalBalance_ne_err
      · exact absurd hset1 SetFractionalBalance_ne_err
      · exact absurd h (by simp)

theorem bankSendCoins_err {cs : Coins} {s st : State α} {x y : α} {e : Err}
    (h : bankSendCoins s x y cs = .err e st) :
    ∃ (d : Denom) (bal n : ℤ), e = Err.insufficientFunds d bal n := by
  induction cs generalizing s with
  | nil =>
    unfold bankSendCoins at h
    exact absurd h (by simp)
  | cons cz rest ih =>
    unfold bankSendCoins at h
    rcases hbs : bankSend s x y cz.1 cz.2 with s₁ | ⟨e1, est1⟩ | _ <;>
      rw [hbs] at h <;> simp only at h
    · exact ih h
    · injection h with h1 h2
      obtain ⟨he1, -⟩ := bankSend_err hbs
      exact ⟨cz.1, s.bal cz.1 x, cz.2, by rw [← h1, he1]⟩
    · exact absurd hbs bankSend_ne_fatal

/-- SendCoins never returns an Unauthorized error: its only error kinds are
InvalidCoins and (possibly rewritten) InsufficientFunds. -/
theorem SendCoins_err_not_unauthorized {R src dst : α} {s st : State α} {amt : Coins}
    {e : Err} {evs : List (Event α)}
    (h : SendCoins R s src dst amt = (.err e st, evs)) :
    e ≠ Err.unauthorized := by
  unfold SendCoins at h
  by_cases hv : IsValid amt
  swap
  · rw [if_pos hv] at h
    have h1 := congrArg Prod.fst h
    simp only at h1
    injection h1 with h1 h2
    rw [← h1]
    simp
  rw [if_neg (not_not_intro hv)] at h
  simp only at h
  by_cases hall : IsAllPositive (if 0 < amountOf amt Denom.dext
      then removeDenom amt Denom.dext else amt) = true
  · rw [if_pos hall] at h
    rcases hpt : bankSendCoins s src dst
        (if 0 < amountOf amt Denom.dext then removeDenom amt Denom.dext else amt) with
      s₁ | ⟨e1, est1⟩ | _ <;> rw [hpt] at h <;> simp only at h
    rotate_left
    · have h1 := congrArg Prod.fst h
      simp only at h1
      injection h1 with h1 h2
      obtain ⟨d, bal, n, he⟩ := bankSendCoins_err hpt
      rw [← h1, he]
      simp
    · exact absurd h (by simp)
    by_cases hext : 0 < amountOf amt Denom.dext
    · rw [if_pos hext] at h
      rcases hse : sendExtendedCoins R s₁ src dst (amountOf amt Denom.dext) with
        s₂ | ⟨e2, est2⟩ | _ <;> rw [hse] at h <;> simp only at h
      · by_cases hfe : amountOf amt Denom.dext + amountOf amt Denom.dint * ConversionFactor = 0 <;>
          [rw [if_pos hfe] at h; rw [if_neg hfe] at h] <;> exact absurd h (by simp)
      · have h1 := congrArg Prod.fst h
        simp only at h1
        injection h1 with h1 h2
        rw [← h1, sendExtendedCoins_err hse]
        simp
      · exact absurd h (by simp)
    · rw [if_neg hext] at h
      simp only at h
      by_cases hfe : amountOf amt Denom.dext + amountOf amt Denom.dint * ConversionFactor = 0 <;>
        [rw [if_pos hfe] at h; rw [if_neg hfe] at h] <;> exact absurd h (by simp)
  · rw [if_neg hall] at h
    simp only at h
    by_cases hext : 0 < amountOf amt Denom.dext
    · rw [if_pos hext] at h
      rcases hse : sendExtendedCoins R s src dst (amountOf amt Denom.dext) with
        s₂ | ⟨e2, est2⟩ | _ <;> rw [hse] at h <;> simp only at h
      · by_cases hfe : amountOf amt Denom.dext + amountOf amt Denom.dint * ConversionFactor = 0 <;>
          [rw [if_pos hfe] at h; rw [if_neg hfe] at h] <;> exact absurd h (by simp)
      · have h1 := congrArg Prod.fst h
        simp only at h1
        injection h1 with h1 h2
        rw [← h1, sendExtendedCoins_err hse]
        simp
      · exact absurd h (by simp)
    · rw [if_neg hext] at h
      simp only at h
      by_cases hfe : amountOf amt Denom.dext + amountOf amt Denom.dint * ConversionFactor = 0 <;>
        [rw [if_pos hfe] at h; rw [if_neg hfe] at h] <;> exact absurd h (by simp)

/-- C5: the rewriter maps every error of InsufficientFunds kind (recognized
by constructor, not message text) to an InsufficientFunds error carrying
the account's extended-denom balance and the full requested extended-denom
amount, returns every other error kind unchanged, and when the direct
integer send of an extended transfer fails for lack of funds the engine
returns exactly the rewritten error. -/
theorem claim_C5_insufficient_funds_rewrite (s : State α) (addr : α) (amt : ℤ) :
    (∀ (d : Denom) (bal req : ℤ),
      updateInsufficientFundsError s addr amt (Err.insufficientFunds d bal req) =
        Err.insufficientFunds Denom.dext (GetBalance s addr Denom.dext) amt) ∧
    (∀ e : Err, (∀ d bal req, e ≠ Err.insufficientFunds d bal req) →
      updateInsufficientFundsError s addr amt e = e) ∧
    (∀ (R src dst : α) (a : ℤ), src ≠ dst →
      s.fracBal src < ConversionFactor → s.fracBal dst < ConversionFactor →
      0 < a / ConversionFactor →
      s.bal Denom.dint src < a / ConversionFactor →
      sendExtendedCoins R s src dst a =
        .err (Err.insufficientFunds Denom.dext (GetBalance s src Denom.dext) a) s) := by
  refine ⟨fun d bal req => rfl, ?_, ?_⟩
  · intro e he
    cases e with
    | insufficientFunds d bal req => exact absurd rfl (he d bal req)
    | invalidCoins => rfl
    | unauthorized => rfl
    | other k => rfl
  · intro R src dst a hne hfs hfd hdm hbal
    have hCpos : (0:ℤ) < ConversionFactor := by
      rw [ConversionFactor_eq]; norm_num
    have hp0 : 0 ≤ a % ConversionFactor := Int.emod_nonneg a (by omega)
    have hp1 : a % ConversionFactor < ConversionFactor := Int.emod_lt_of_pos a hCpos
    unfold sendExtendedCoins
    rw [if_neg hne]
    simp only [GetFractionalBalance]
    rw [subFromFractionalBalance_lt hfs hp1, addToFractionalBalance_lt hfd hp1]
    by_cases hb : s.fracBal src - a % ConversionFactor < 0 <;>
      by_cases hc : ConversionFactor ≤ s.fracBal dst + a % ConversionFactor
    · rw [if_pos hb, if_pos hc]
      simp only [Bool.and_self, ite_bool_tt, if_true]
      rw [if_pos (by omega : (0:ℤ) < a / ConversionFactor + 1)]
      rw [show bankSend s src dst Denom.dint (a / ConversionFactor + 1) =
          .err (.insufficientFunds Denom.dint (s.bal Denom.dint src)
            (a / ConversionFactor + 1)) s from by
        unfold bankSend
        rw [if_pos (by omega)]]
      simp only [Outcome.mapErrWith]
      rfl
    · rw [if_pos hb, if_neg hc]
      simp only [Bool.and_false, ite_bool_ff, if_false]
      rw [if_pos hdm]
      rw [show bankSend s src dst Denom.dint (a / ConversionFactor) =
          .err (.insufficientFunds Denom.dint (s.bal Denom.dint src)
            (a / ConversionFactor)) s from by
        unfold bankSend
        rw [if_pos (by omega)]]
      simp only [Outcome.mapErrWith]
      rfl
    · rw [if_neg hb, if_pos hc]
      simp only [Bool.false_and, ite_bool_ff, if_false]
      rw [if_pos hdm]
      rw [show bankSend s src dst Denom.dint (a / ConversionFactor) =
          .err (.insufficientFunds Denom.dint (s.bal Denom.dint src)
            (a / ConversionFactor)) s from by
        unfold bankSend
        rw [if_pos (by omega)]]
      simp only [Outcome.mapErrWith]
      rfl
    · rw [if_neg hb, if_neg hc]
      simp only [Bool.and_self, ite_bool_ff, if_false]
      rw [if_pos hdm]
      rw [show bankSend s src dst Denom.dint (a / ConversionFactor) =
          .err (.insufficientFunds Denom.dint (s.bal Denom.dint src)
            (a / ConversionFactor)) s from by
        unfold bankSend
        rw [if_pos (by omega)]]
      simp only [Outcome.mapErrWith]
      rfl

/-- Initial state of the C5 witness: the sender holds no integer balance
and fractional balance 200_000_000_000 (spec scenario 6). -/
def c5State : State (Fin 3) :=
  { bal := fun _ _ => 0
    fracBal := fun z => if z = 1 then 200000000000 else 0
    trace := [] }

/-- C5 witness: sending one full conversion factor without integer backing
yields the rewritten InsufficientFunds error with the extended balance and
the extended request. -/
theorem claim_C5_witness :
    updateInsufficientFundsError c5State (1 : Fin 3) 1000000000000
        (Err.insufficientFunds Denom.dint 0 1) =
      Err.insufficientFunds Denom.dext 200000000000 1000000000000 ∧
    updateInsufficientFundsError c5State (1 : Fin 3) 1000000000000 Err.unauthorized =
      Err.unauthorized ∧
    sendExtendedCoins (0 : Fin 3) c5State 1 2 1000000000000 =
      .err (Err.insufficientFunds Denom.dext 200000000000 1000000000000) c5State := by
  have h := claim_C5_insufficient_funds_rewrite c5State (1 : Fin 3) 1000000000000
  refine ⟨?_, h.2.1 Err.unauthorized (by intro d bal req h; cases h), ?_⟩
  · have h1 := h.1 Denom.dint 0 1
    rw [h1]
    rfl
  · have h3 := h.2.2 (0 : Fin 3) 1 2 1000000000000 (by decide) (by decide) (by decide)
      (by decide) (by decide)
    rw [h3]
    rfl

/-- C9: the module-to-module facade checks only the recipient against the
reserve name; with the reserve as sender (and a registered non-reserve
recipient) it returns no Unauthorized error and delegates to SendCoins with
the reserve's address as sender, so module-to-module transfers can move
funds out of the reserve. -/
theorem claim_C9_reserve_as_sender (env : Env α) (R : α) (s : State α)
    (recipientModule : String) (amt : Coins) (sAddr rAddr : α)
    (hs : env.moduleAddr ModuleName = some sAddr)
    (hr : env.moduleAddr recipientModule = some rAddr)
    (hne : recipientModule ≠ ModuleName) :
    SendCoinsFromModuleToModule env R s ModuleName recipientModule amt =
      SendCoins R s sAddr rAddr amt ∧
    (∀ (e : Err) (st : State α) (evs : List (Event α)),
      SendCoinsFromModuleToModule env R s ModuleName recipientModule amt =
        (.err e st, evs) → e ≠ Err.unauthorized) := by
  have heq : SendCoinsFromModuleToModule env R s ModuleName recipientModule amt =
      SendCoins R s sAddr rAddr amt := by
    unfold SendCoinsFromModuleToModule
    rw [hs]
    simp only
    rw [hr]
    simp only
    rw [if_neg hne]
  refine ⟨heq, ?_⟩
  intro e st evs hcall
  rw [heq] at hcall
  exact SendCoins_err_not_unauthorized hcall

/-- C9 witness: with the registry of the facade witnesses, a send from the
reserve module to module "m" delegates to SendCoins (and trivially
succeeds for the empty coin list). -/
theorem claim_C9_witness :
    SendCoinsFromModuleToModule c7Env (0 : Fin 3) c7State ModuleName "m" [] =
      SendCoins (0 : Fin 3) c7State 0 1 [] :=
  (claim_C9_reserve_as_sender c7Env (0 : Fin 3) c7State "m" [] 0 1 rfl rfl
    (by decide)).1

theorem amountOf_nonneg {cs : Coins} (hpos : ∀ c ∈ cs, 0 < c.2) (d : Denom) :
    0 ≤ amountOf cs d := by
  unfold amountOf
  rcases hf : cs.find? (fun c => decide (c.1 = d)) with _ | c
  · rw [hf]
  · rw [hf]
    exact (hpos c (List.mem_of_find?_eq_some hf)).le

/-- A self-send of only the extended denom succeeds, changes nothing, and
emits the three events for the full amount. -/
theorem SendCoins_self_ext_only (R x : α) (s : State α) (a : ℤ) (ha : 0 < a) :
    SendCoins R s x x [(Denom.dext, a)] =
      (.ok s, [Event.transfer x x [(Denom.dext, a)],
               Event.coinSpent x [(Denom.dext, a)],
               Event.coinReceived x [(Denom.dext, a)]]) := by
  have hvalid : IsValid [(Denom.dext, a)] := by
    refine ⟨?_, by simp⟩
    intro c hc
    rcases List.mem_singleton.mp hc with rfl
    exact ha
  unfold SendCoins
  rw [if_neg (not_not_intro hvalid)]
  simp only
  rw [show amountOf [(Denom.dext, a)] Denom.dext = a from rfl]
  rw [if_pos ha]
  rw [show removeDenom [(Denom.dext, a)] Denom.dext = ([] : Coins) from rfl]
  rw [show IsAllPositive ([] : Coins) = false from rfl]
  rw [ite_bool_ff]
  simp only
  rw [if_pos ha, sendExtendedCoins_self]
  simp only
  rw [show amountOf [(Denom.dext, a)] Denom.dint = 0 from rfl]
  rw [if_neg (by omega : ¬(a + 0 * ConversionFactor = 0))]
  norm_num

/-- C10 (amended): a self-send whose coins consist of a positive
extended-denom amount succeeds without touching any balance and still
emits the transfer, coin_spent and coin_received events in the extended
denom; in general, whenever such a self-send succeeds (its pass-through
portion may fail in the underlying ledger), it leaves all balances
unchanged and emits the three events for the full equivalent amount. -/
theorem claim_C10_self_send_emits_events (R x : α) (s : State α) :
    (∀ a : ℤ, 0 < a →
      SendCoins R s x x [(Denom.dext, a)] =
        (.ok s, [Event.transfer x x [(Denom.dext, a)],
                 Event.coinSpent x [(Denom.dext, a)],
                 Event.coinReceived x [(Denom.dext, a)]])) ∧
    (∀ (cs : Coins) (s' : State α) (evs : List (Event α)),
      SendCoins R s x x cs = (.ok s', evs) →
      0 < amountOf cs Denom.dext →
      (∀ d z, s'.bal d z = s.bal d z) ∧ s'.fracBal = s.fracBal ∧
      evs = [Event.transfer x x [(Denom.dext, fullEmissionOf cs)],
             Event.coinSpent x [(Denom.dext, fullEmissionOf cs)],
             Event.coinReceived x [(Denom.dext, fullEmissionOf cs)]]) := by
  refine ⟨fun a ha => SendCoins_self_ext_only R x s a ha, ?_⟩
  intro cs s' evs h hext
  obtain ⟨hv, s₁, hstage1, hstage2, hevs⟩ := SendCoins_ok_decomp h
  have hs1 : (∀ d z, s₁.bal d z = s.bal d z) ∧ s₁.fracBal = s.fracBal := by
    rcases hstage1 with ⟨hall, hpt⟩ | ⟨-, rfl⟩
    · obtain ⟨hf, -, hself, -⟩ := bankSendCoins_ok_facts hpt
      exact ⟨hself rfl, hf⟩
    · exact ⟨fun _ _ => rfl, rfl⟩
  have hs' : s' = s₁ := by
    rcases hstage2 with ⟨-, hse⟩ | ⟨hc, rfl⟩
    · rw [sendExtendedCoins_self] at hse
      injection hse with hse
      exact hse.symm
    · rfl
  subst hs'
  have hfe : fullEmissionOf cs ≠ 0 := by
    have h1 : 0 ≤ amountOf cs Denom.dint := amountOf_nonneg hv.1 Denom.dint
    have h2 : (0:ℤ) < ConversionFactor := by rw [ConversionFactor_eq]; norm_num
    unfold fullEmissionOf
    nlinarith
  refine ⟨hs1.1, hs1.2, ?_⟩
  rw [hevs, if_neg hfe]

/-- All-zero store on two accounts for the C10 counterexample. -/
def c10State : State (Fin 2) :=
  { bal := fun _ _ => 0, fracBal := fun _ => 0, trace := [] }

/-- Coins of the C10 counterexample: a pass-through integer amount the
account cannot cover next to a positive extended amount. -/
def c10Coins : Coins := [(Denom.dint, 5), (Denom.dext, 1)]

/-- C10 counterexample: a self-send whose coins contain a positive
extended-denom amount does not succeed (and emits nothing) when the
pass-through integer portion exceeds the account's balance, refuting the
claim that every such self-send succeeds and emits the events. -/
theorem claim_C10_counterexample :
    0 < amountOf c10Coins Denom.dext ∧
    Outcome.isOk (SendCoins (0 : Fin 2) c10State 1 1 c10Coins).1 = false ∧
    (SendCoins (0 : Fin 2) c10State 1 1 c10Coins).2 = [] := by
  refine ⟨by decide, by decide, by decide⟩

/-- C10 witness: a concrete extended-only self-send of 700_000_000_000
succeeds unchanged and emits the three events. -/
theorem claim_C10_witness :
    SendCoins (0 : Fin 2) c10State 1 1 [(Denom.dext, 700000000000)] =
      (.ok c10State,
       [Event.transfer 1 1 [(Denom.dext, 700000000000)],
        Event.coinSpent 1 [(Denom.dext, 700000000000)],
        Event.coinReceived 1 [(Denom.dext, 700000000000)]]) :=
  (claim_C10_self_send_emits_events (0 : Fin 2) 1 c10State).1 700000000000 (by norm_num)

/-- C2: the integer moves of a successful extended transfer follow the
borrow/carry truth table: with both borrow and carry a single direct
transfer of i+1 units and no reserve traffic; with borrow only, the direct
transfer of i units (omitted when i = 0) followed by one unit from the
sender to the reserve; with carry only, the direct transfer followed by one
unit from the reserve to the recipient; with neither, only the direct
transfer; the direct transfer always precedes the reserve move, and the
total units moved equal i plus one exactly when a borrow or carry occurs
(i = a / C). -/
theorem claim_C2_integer_move_truth_table (R src dst : α) (s s' : State α) (a : ℤ)
    (hne : src ≠ dst) (ha : 0 < a)
    (h : sendExtendedCoins R s src dst a = .ok s') :
    ∃ moves : List (α × α × Denom × ℤ),
      s'.trace = s.trace ++ moves ∧
      moves =
        (if s.fracBal src < a % ConversionFactor ∧
            ConversionFactor ≤ s.fracBal dst + a % ConversionFactor then
          [(src, dst, Denom.dint, a / ConversionFactor + 1)]
        else
          (if 0 < a / ConversionFactor then
            [(src, dst, Denom.dint, a / ConversionFactor)]
           else []) ++
          (if s.fracBal src < a % ConversionFactor then [(src, R, Denom.dint, 1)]
           else []) ++
          (if ConversionFactor ≤ s.fracBal dst + a % ConversionFactor then
            [(R, dst, Denom.dint, 1)]
           else [])) ∧
      (moves.map (fun m => m.2.2.2)).sum =
        a / ConversionFactor +
          (if s.fracBal src < a % ConversionFactor ∨
              ConversionFactor ≤ s.fracBal dst + a % ConversionFactor then 1 else 0) := by
  obtain ⟨b, c, fs', fr', dmv, hbiff, hciff, hfseq, hfreq, hdmv, hfs, hfd, hfs0, hfs1,
    hfr0, hfr1, hFrac, hOth, hInt, hTrace, hChk1, hChk2, hChk3⟩ :=
    sendExtendedCoins_ok_char hne ha h
  have hCpos : (0:ℤ) < ConversionFactor := by rw [ConversionFactor_eq]; norm_num
  have hinn : 0 ≤ a / ConversionFactor := Int.ediv_nonneg ha.le hCpos.le
  refine ⟨_, hTrace, ?_, ?_⟩
  · -- computed move list equals the truth-table move list
    cases b <;> cases c
    · have hbP : ¬(s.fracBal src < a % ConversionFactor) :=
        fun hx => absurd (hbiff.mpr (by omega)) (by simp)
      have hcP : ¬(ConversionFactor ≤ s.fracBal dst + a % ConversionFactor) :=
        fun hx => absurd (hciff.mpr hx) (by simp)
      rw [if_neg (by decide : ¬((false && false) = true))] at hdmv
      rw [hdmv, if_neg (show ¬(s.fracBal src < a % ConversionFactor ∧ ConversionFactor ≤ s.fracBal dst + a % ConversionFactor) from fun hx => hbP hx.1),
          if_neg (by decide : ¬((false && !false) = true)),
          if_neg (by decide : ¬((!false && false) = true)),
          if_neg hbP, if_neg hcP]
    · have hbP : ¬(s.fracBal src < a % ConversionFactor) :=
        fun hx => absurd (hbiff.mpr (by omega)) (by simp)
      have hcP : ConversionFactor ≤ s.fracBal dst + a % ConversionFactor :=
        hciff.mp rfl
      rw [if_neg (by decide : ¬((false && true) = true))] at hdmv
      rw [hdmv, if_neg (show ¬(s.fracBal src < a % ConversionFactor ∧ ConversionFactor ≤ s.fracBal dst + a % ConversionFactor) from fun hx => hbP hx.1),
          if_neg (by decide : ¬((false && !true) = true)),
          if_pos (by decide : (!false && true) = true),
          if_neg hbP, if_pos hcP]
    · have hbP : s.fracBal src < a % ConversionFactor := by
        have := hbiff.mp rfl
        omega
      have hcP : ¬(ConversionFactor ≤ s.fracBal dst + a % ConversionFactor) :=
        fun hx => absurd (hciff.mpr hx) (by simp)
      rw [if_neg (by decide : ¬((true && false) = true))] at hdmv
      rw [hdmv, if_neg (show ¬(s.fracBal src < a % ConversionFactor ∧ ConversionFactor ≤ s.fracBal dst + a % ConversionFactor) from fun hx => hcP hx.2),
          if_pos (by decide : (true && !false) = true),
          if_neg (by decide : ¬((!true && false) = true)),
          if_pos hbP, if_neg hcP]
    · have hbP : s.fracBal src < a % ConversionFactor := by
        have := hbiff.mp rfl
        omega
      have hcP : ConversionFactor ≤ s.fracBal dst + a % ConversionFactor :=
        hciff.mp rfl
      rw [if_pos (by decide : (true && true) = true)] at hdmv
      rw [hdmv, if_pos (show s.fracBal src < a % ConversionFactor ∧ ConversionFactor ≤ s.fracBal dst + a % ConversionFactor from ⟨hbP, hcP⟩),
          if_pos (by omega : (0:ℤ) < a / ConversionFactor + 1),
          if_neg (by decide : ¬((true && !true) = true)),
          if_neg (by decide : ¬((!true && true) = true))]
      simp
  · -- total units moved
    cases b <;> cases c
    · have hbP : ¬(s.fracBal src < a % ConversionFactor) :=
        fun hx => absurd (hbiff.mpr (by omega)) (by simp)
      have hcP : ¬(ConversionFactor ≤ s.fracBal dst + a % ConversionFactor) :=
        fun hx => absurd (hciff.mpr hx) (by simp)
      rw [if_neg (by decide : ¬((false && false) = true))] at hdmv
      rw [hdmv, if_neg (by decide : ¬((false && !false) = true)),
          if_neg (by decide : ¬((!false && false) = true)),
          (show (if s.fracBal src < a % ConversionFactor ∨ ConversionFactor ≤ s.fracBal dst + a % ConversionFactor then (1:ℤ) else 0) = 0 from if_neg (fun hx => hx.elim hbP hcP))]
      by_cases hi : 0 < a / ConversionFactor
      · rw [if_pos hi]
        simp
      · rw [if_neg hi]
        simp
        omega
    · have hcP : ConversionFactor ≤ s.fracBal dst + a % ConversionFactor :=
        hciff.mp rfl
      rw [if_neg (by decide : ¬((false && true) = true))] at hdmv
      rw [hdmv, if_neg (by decide : ¬((false && !true) = true)),
          if_pos (by decide : (!false && true) = true),
          if_pos (show s.fracBal src < a % ConversionFactor ∨ ConversionFactor ≤ s.fracBal dst + a % ConversionFactor from Or.inr hcP)]
      by_cases hi : 0 < a / ConversionFactor
      · rw [if_pos hi]
        simp
      · rw [if_neg hi]
        simp
        omega
    · have hbP : s.fracBal src < a % ConversionFactor := by
        have := hbiff.mp rfl
        omega
      rw [if_neg (by decide : ¬((true && false) = true))] at hdmv
      rw [hdmv, if_pos (by decide : (true && !false) = true),
          if_neg (by decide : ¬((!true && false) = true)),
          if_pos (show s.fracBal src < a % ConversionFactor ∨ ConversionFactor ≤ s.fracBal dst + a % ConversionFactor from Or.inl hbP)]
      by_cases hi : 0 < a / ConversionFactor
      · rw [if_pos hi]
        simp
      · rw [if_neg hi]
        simp
        omega
    · have hbP : s.fracBal src < a % ConversionFactor := by
        have := hbiff.mp rfl
        omega
      rw [if_pos (by decide : (true && true) = true)] at hdmv
      rw [hdmv, if_pos (by omega : (0:ℤ) < a / ConversionFactor + 1),
          if_neg (by decide : ¬((true && !true) = true)),
          if_neg (by decide : ¬((!true && true) = true)),
          if_pos (show s.fracBal src < a % ConversionFactor ∨ ConversionFactor ≤ s.fracBal dst + a % ConversionFactor from Or.inl hbP)]
      simp

/-- Extract the success state of an outcome, with a default. -/
def Outcome.getD {σ : Type} (o : Outcome σ) (dflt : σ) : σ :=
  match o with
  | .ok s => s
  | .err _ s => s
  | .fatal => dflt

/-- State of the C2 witness (spec scenario 2): sender 1 holds 5 integer
units and fractional 100_000_000_000, recipient 2 holds fractional
900_000_000_000. -/
def c2State : State (Fin 3) :=
  { bal := fun d z => if d = Denom.dint ∧ z = 1 then 5 else 0
    fracBal := fun z => if z = 1 then 100000000000 else if z = 2 then 900000000000 else 0
    trace := [] }

/-- Result state of the C2 witness transfer. -/
def c2Out : State (Fin 3) :=
  Outcome.getD (sendExtendedCoins (0 : Fin 3) c2State 1 2 1200000000000) c2State

/-- C2 witness: the borrow-and-carry transfer of 1.2 * C issues exactly one
direct integer transfer of 2 units and no reserve traffic. -/
theorem claim_C2_witness :
    c2Out.trace = [((1 : Fin 3), (2 : Fin 3), Denom.dint, 2)] := by
  obtain ⟨moves, h1, h2, h3⟩ := claim_C2_integer_move_truth_table (0 : Fin 3) 1 2
    c2State c2Out 1200000000000 (by decide) (by decide) rfl
  rw [h1, h2]
  decide

/-- C1 (amended): starting from a state satisfying the §3 invariants with
I(R) = 0, every prefix of a sequence of successful SendCoins calls in which
the reserve is neither sender nor recipient preserves the invariants: all
fractional balances stay in [0, C), F(R) stays 0, integer balances (hence
I(R)) stay non-negative, I(R) * C keeps covering the outstanding fractional
balances, and the total extended supply over non-reserve accounts is
unchanged by every call. -/
theorem claim_C1_invariants_preserved [Fintype α] (R : α) (s : State α)
    (calls : List (α × α × Coins))
    (hinv : Inv R s) (hR0 : s.bal Denom.dint R = 0)
    (hR : ∀ c ∈ calls, c.1 ≠ R ∧ c.2.1 ≠ R) :
    ∀ pre post : List (α × α × Coins), calls = pre ++ post →
      ∀ s', runSends R s pre = some s' →
        Inv R s' ∧ totalSupply s' R = totalSupply s R ∧ 0 ≤ s'.bal Denom.dint R := by
  intro pre post hsplit s' hrun
  have hRpre : ∀ c ∈ pre, c.1 ≠ R ∧ c.2.1 ≠ R := fun c hc =>
    hR c (by rw [hsplit]; exact List.mem_append_left post hc)
  obtain ⟨h1, h2⟩ := runSends_preserves hinv hRpre hrun
  exact ⟨h1, h2, h1.2.2.1 R⟩

/-- Initial state of the C1 counterexample: account 1 holds one integer
unit, everything else (including the reserve 0) is empty. -/
def c1State : State (Fin 2) :=
  { bal := fun d z => if d = Denom.dint ∧ z = 1 then 1 else 0
    fracBal := fun _ => 0
    trace := [] }

/-- The reserve's fractional balance after a successful send, if any. -/
def c1FracR : Outcome (State (Fin 2)) → Option ℤ
  | .ok s' => some (s'.fracBal 0)
  | _ => none

/-- C1 counterexample: from a state satisfying the §3 invariants with
I(R) = 0, one successful SendCoins call with the reserve itself as the
recipient leaves F(R) = 500_000_000_000 ≠ 0, breaking invariant F(R) = 0;
so the claim is false when the quantified calls may touch the reserve. -/
theorem claim_C1_counterexample :
    Inv (0 : Fin 2) c1State ∧
    c1State.bal Denom.dint 0 = 0 ∧
    c1FracR (SendCoins (0 : Fin 2) c1State 1 0 [(Denom.dext, 500000000000)]).1 =
      some 500000000000 ∧
    (500000000000 : ℤ) ≠ 0 := by
  refine ⟨by decide, rfl, by decide, by norm_num⟩

/-- Initial state of the C1 witness: account 1 holds five integer units. -/
def c1wState : State (Fin 3) :=
  { bal := fun d z => if d = Denom.dint ∧ z = 1 then 5 else 0
    fracBal := fun _ => 0
    trace := [] }

/-- The single borrow-inducing transfer of the C1 witness. -/
def c1wCalls : List (Fin 3 × Fin 3 × Coins) :=
  [(1, 2, [(Denom.dext, 1500000000000)])]

/-- C1 witness: the invariants theorem applied to one successful
reserve-avoiding call from a concrete invariant-satisfying state. -/
theorem claim_C1_witness :
    0 ≤ ((runSends (0 : Fin 3) c1wState c1wCalls).get (by decide)).bal Denom.dint 0 := by
  have h := claim_C1_invariants_preserved (0 : Fin 3) c1wState c1wCalls (by decide) rfl
    (by decide) c1wCalls [] (by simp)
    ((runSends (0 : Fin 3) c1wState c1wCalls).get (by decide))
    (Option.some_get (by decide)).symm
  exact h.2.2

/-- C8: for distinct accounts A and B with well-formed (non-negative)
stored fractional balances, a successful extended transfer A to B followed
by a successful transfer of the same amount B to A restores both parties'
true extended balances E = I * C + F to their original values. -/
theorem claim_C8_round_trip (R A B : α) (s s₁ s₂ : State α) (a : ℤ)
    (hAB : A ≠ B) (ha : 0 < a)
    (hFA : 0 ≤ s.fracBal A) (hFB : 0 ≤ s.fracBal B)
    (h1 : sendExtendedCoins R s A B a = .ok s₁)
    (h2 : sendExtendedCoins R s₁ B A a = .ok s₂) :
    extBal s₂ A = extBal s A ∧ extBal s₂ B = extBal s B := by
  obtain ⟨b1, c1, fs1, fr1, dmv1, hbiff1, hciff1, hfseq1, hfreq1, hdmv1, hfs1g, hfd1g,
    hfs10, hfs11, hfr10, hfr11, hFrac1, hOth1, hInt1, hTrace1, hChk11, hChk12, hChk13⟩ :=
    sendExtendedCoins_ok_char hAB ha h1
  obtain ⟨b2, c2, fs2, fr2, dmv2, hbiff2, hciff2, hfseq2, hfreq2, hdmv2, hfs2g, hfd2g,
    hfs20, hfs21, hfr20, hfr21, hFrac2, hOth2, hInt2, hTrace2, hChk21, hChk22, hChk23⟩ :=
    sendExtendedCoins_ok_char (fun hh => hAB hh.symm) ha h2
  have hCeq := ConversionFactor_eq
  have hp0 : 0 ≤ a % ConversionFactor := Int.emod_nonneg a (by omega)
  have hp1 : a % ConversionFactor < ConversionFactor := Int.emod_lt_of_pos a (by omega)
  have hsB : s₁.fracBal B = fr1 := by
    rw [hFrac1 B, if_pos rfl]
  have hsA : s₁.fracBal A = fs1 := by
    rw [hFrac1 A, if_neg hAB, if_pos rfl]
  cases b1 <;> cases c1
  · -- first send: no borrow, no carry
    rw [if_neg (by decide : ¬((false && false) = true))] at hdmv1
    rw [ite_bool_ff] at hfseq1
    rw [ite_bool_ff] at hfreq1
    cases b2 <;> cases c2
    · -- second send: no borrow, no carry (the matching case)
      rw [if_neg (by decide : ¬((false && false) = true))] at hdmv2
      rw [ite_bool_ff] at hfseq2
      rw [ite_bool_ff] at hfreq2
      rw [hsB, hfreq1] at hfseq2
      rw [hsA, hfseq1] at hfreq2
      constructor
      · unfold extBal
        rw [hInt2 A, hInt1 A, hFrac2 A]
        simp only [Bool.and_self, Bool.false_and, Bool.true_and, Bool.and_false,
          Bool.and_true, Bool.not_true, Bool.not_false, ite_bool_ff, ite_bool_tt,
          if_true, if_false, eq_self_iff_true,
          eq_false (show ¬(A = B) from hAB), eq_false (show ¬(B = A) from fun hh => hAB hh.symm)]
        rw [hfreq2, hdmv1, hdmv2, hCeq]
        omega
      · unfold extBal
        rw [hInt2 B, hInt1 B, hFrac2 B]
        simp only [Bool.and_self, Bool.false_and, Bool.true_and, Bool.and_false,
          Bool.and_true, Bool.not_true, Bool.not_false, ite_bool_ff, ite_bool_tt,
          if_true, if_false, eq_self_iff_true,
          eq_false (show ¬(A = B) from hAB), eq_false (show ¬(B = A) from fun hh => hAB hh.symm)]
        rw [hfseq2, hdmv1, hdmv2, hCeq]
        omega
    · have hx : ConversionFactor ≤ s₁.fracBal A + a % ConversionFactor := hciff2.mp rfl
      rw [hsA, hfseq1] at hx
      omega
    · have hx : s₁.fracBal B - a % ConversionFactor < 0 := hbiff2.mp rfl
      rw [hsB, hfreq1] at hx
      omega
    · have hx : s₁.fracBal B - a % ConversionFactor < 0 := hbiff2.mp rfl
      rw [hsB, hfreq1] at hx
      omega
  · -- first send: no borrow, carry
    rw [if_neg (by decide : ¬((false && true) = true))] at hdmv1
    rw [ite_bool_ff] at hfseq1
    rw [ite_bool_tt] at hfreq1
    cases b2 <;> cases c2
    · have hx : ¬(s₁.fracBal B - a % ConversionFactor < 0) :=
        fun hx => absurd (hbiff2.mpr hx) (by simp)
      rw [hsB, hfreq1] at hx
      omega
    · have hx : ¬(s₁.fracBal B - a % ConversionFactor < 0) :=
        fun hx => absurd (hbiff2.mpr hx) (by simp)
      rw [hsB, hfreq1] at hx
      omega
    · -- second send: borrow, no carry (the matching case)
      rw [if_neg (by decide : ¬((true && false) = true))] at hdmv2
      rw [ite_bool_tt] at hfseq2
      rw [ite_bool_ff] at hfreq2
      rw [hsB, hfreq1] at hfseq2
      rw [hsA, hfseq1] at hfreq2
      constructor
      · unfold extBal
        rw [hInt2 A, hInt1 A, hFrac2 A]
        simp only [Bool.and_self, Bool.false_and, Bool.true_and, Bool.and_false,
          Bool.and_true, Bool.not_true, Bool.not_false, ite_bool_ff, ite_bool_tt,
          if_true, if_false, eq_self_iff_true,
          eq_false (show ¬(A = B) from hAB), eq_false (show ¬(B = A) from fun hh => hAB hh.symm)]
        rw [hfreq2, hdmv1, hdmv2, hCeq]
        omega
      · unfold extBal
        rw [hInt2 B, hInt1 B, hFrac2 B]
        simp only [Bool.and_self, Bool.false_and, Bool.true_and, Bool.and_false,
          Bool.and_true, Bool.not_true, Bool.not_false, ite_bool_ff, ite_bool_tt,
          if_true, if_false, eq_self_iff_true,
          eq_false (show ¬(A = B) from hAB), eq_false (show ¬(B = A) from fun hh => hAB hh.symm)]
        rw [hfseq2, hdmv1, hdmv2, hCeq]
        omega
    · have hx : ConversionFactor ≤ s₁.fracBal A + a % ConversionFactor := hciff2.mp rfl
      rw [hsA, hfseq1] at hx
      omega
  · -- first send: borrow, no carry
    rw [if_neg (by decide : ¬((true && false) = true))] at hdmv1
    rw [ite_bool_tt] at hfseq1
    rw [ite_bool_ff] at hfreq1
    cases b2 <;> cases c2
    · have hx : ¬(ConversionFactor ≤ s₁.fracBal A + a % ConversionFactor) :=
        fun hx => absurd (hciff2.mpr hx) (by simp)
      rw [hsA, hfseq1] at hx
      omega
    · -- second send: no borrow, carry (the matching case)
      rw [if_neg (by decide : ¬((false && true) = true))] at hdmv2
      rw [ite_bool_ff] at hfseq2
      rw [ite_bool_tt] at hfreq2
      rw [hsB, hfreq1] at hfseq2
      rw [hsA, hfseq1] at hfreq2
      constructor
      · unfold extBal
        rw [hInt2 A, hInt1 A, hFrac2 A]
        simp only [Bool.and_self, Bool.false_and, Bool.true_and, Bool.and_false,
          Bool.and_true, Bool.not_true, Bool.not_false, ite_bool_ff, ite_bool_tt,
          if_true, if_false, eq_self_iff_true,
          eq_false (show ¬(A = B) from hAB), eq_false (show ¬(B = A) from fun hh => hAB hh.symm)]
        rw [hfreq2, hdmv1, hdmv2, hCeq]
        omega
      · unfold extBal
        rw [hInt2 B, hInt1 B, hFrac2 B]
        simp only [Bool.and_self, Bool.false_and, Bool.true_and, Bool.and_false,
          Bool.and_true, Bool.not_true, Bool.not_false, ite_bool_ff, ite_bool_tt,
          if_true, if_false, eq_self_iff_true,
          eq_false (show ¬(A = B) from hAB), eq_false (show ¬(B = A) from fun hh => hAB hh.symm)]
        rw [hfseq2, hdmv1, hdmv2, hCeq]
        omega
    · have hx : s₁.fracBal B - a % ConversionFactor < 0 := hbiff2.mp rfl
      rw [hsB, hfreq1] at hx
      omega
    · have hx : s₁.fracBal B - a % ConversionFactor < 0 := hbiff2.mp rfl
      rw [hsB, hfreq1] at hx
      omega
  · -- first send: borrow and carry
    rw [if_pos (by decide : (true && true) = true)] at hdmv1
    rw [ite_bool_tt] at hfseq1
    rw [ite_bool_tt] at hfreq1
    cases b2 <;> cases c2
    · have hx : ¬(s₁.fracBal B - a % ConversionFactor < 0) :=
        fun hx => absurd (hbiff2.mpr hx) (by simp)
      rw [hsB, hfreq1] at hx
      omega
    · have hx : ¬(s₁.fracBal B - a % ConversionFactor < 0) :=
        fun hx => absurd (hbiff2.mpr hx) (by simp)
      rw [hsB, hfreq1] at hx
      omega
    · have hx : ¬(ConversionFactor ≤ s₁.fracBal A + a % ConversionFactor) :=
        fun hx => absurd (hciff2.mpr hx) (by simp)
      rw [hsA, hfseq1] at hx
      omega
    · -- second send: borrow and carry (the matching case)
      rw [if_pos (by decide : (true && true) = true)] at hdmv2
      rw [ite_bool_tt] at hfseq2
      rw [ite_bool_tt] at hfreq2
      rw [hsB, hfreq1] at hfseq2
      rw [hsA, hfseq1] at hfreq2
      constructor
      · unfold extBal
        rw [hInt2 A, hInt1 A, hFrac2 A]
        simp only [Bool.and_self, Bool.false_and, Bool.true_and, Bool.and_false,
          Bool.and_true, Bool.not_true, Bool.not_false, ite_bool_ff, ite_bool_tt,
          if_true, if_false, eq_self_iff_true,
          eq_false (show ¬(A = B) from hAB), eq_false (show ¬(B = A) from fun hh => hAB hh.symm)]
        rw [hfreq2, hdmv1, hdmv2, hCeq]
        omega
      · unfold extBal
        rw [hInt2 B, hInt1 B, hFrac2 B]
        simp only [Bool.and_self, Bool.false_and, Bool.true_and, Bool.and_false,
          Bool.and_true, Bool.not_true, Bool.not_false, ite_bool_ff, ite_bool_tt,
          if_true, if_false, eq_self_iff_true,
          eq_false (show ¬(A = B) from hAB), eq_false (show ¬(B = A) from fun hh => hAB hh.symm)]
        rw [hfseq2, hdmv1, hdmv2, hCeq]
        omega

/-- End state of the C8 witness round trip. -/
def c8End : State (Fin 3) :=
  Outcome.getD (sendExtendedCoins (0 : Fin 3) c2Out 2 1 1200000000000) c2State

/-- C8 witness: the round trip of 1.2 * C between accounts 1 and 2 restores
both extended balances. -/
theorem claim_C8_witness :
    extBal c8End 1 = extBal c2State 1 ∧ extBal c8End 2 = extBal c2State 2 :=
  claim_C8_round_trip (0 : Fin 3) 1 2 c2State c2Out c8End 1200000000000
    (by decide) (by decide) (by decide) (by decide) rfl rfl

end PreciseBank
